import Mathlib

/-!
# SingleOscillatorVoice: a shallow embedding of the voice render path

The development embeds `Source/SingleOscillatorVoice.cpp` (BespokeSynth).

* Numbers.  The C++ code computes on `float`/`double`.  Every definition below is
  generic in the number type `α` and uses only the operations the source uses
  (`+`, `-`, `*`, unary minus, `>`/`<`, `!=`, numeric literals).  Theorems about
  exact arithmetic instantiate `α` with a linear ordered field (`ℚ` for concrete
  evaluation, `ℝ` where the sine function is involved); the behaviour at the IEEE
  special value `+∞` is studied on `XFloat`, rationals extended with `+∞`, `-∞`
  and `NaN`.
* State.  The voice object becomes the record `Voice`; the externally owned
  parameter block becomes `OscillatorVoiceParams`; both are passed explicitly.
* Collaborators whose code is not part of `SingleOscillatorVoice.cpp`
  (`ADSR`, `BiquadFilter`, `EnvOscillator::Value`, `TheScale`, `GetPhaseInc`,
  pan gains, `ofRandom`, the constants `kMaxUnison`, `FTWO_PI`,
  `SINGLEOSCILLATOR_NO_CUTOFF`, `gInvSampleRateMs`) are fields of `Env`.
* Loops.  The `for` loops are total functions (well-founded recursion on the
  distance to the loop bound).  The `while` loop that wraps the phase has no
  bound in the source, so it carries an explicit `fuel`; `none` means that the
  loop did not finish within `fuel` iterations.
* The `Profiler` object and the `ofLog()` diagnostic line (source lines 34 and
  66-69) have no effect on the voice, the parameters, the buffer or the control
  flow, and are not modelled.

Layout: the data model and the code; auxiliary definitions and concrete inputs;
lemmas about the loops (refinement to `stepRange`, frames, fuel monotonicity,
termination over an Archimedean ordered field); then the claims `C1` .. `C10`, each
with its theorem and, where applicable, a witness at a concrete input and a
counterexample to the original wording.
-/

set_option linter.unusedSectionVars false
set_option linter.unusedVariables false

namespace SingleOscillatorVoice

/-! ## Data model -/

/-- Settings of one `EnvOscillator` (`mOsc`): what `SetType`, `SetPulseWidth` and
`SetShuffle` store. -/
structure EnvOscillator (α τ : Type) where
  mType : τ
  mPulseWidth : α
  mShuffle : α

/-- One unison slot, an element of `mOscData`. -/
structure OscData (α τ : Type) where
  mOsc : EnvOscillator α τ
  mPhase : α
  mSyncPhase : α
  mDetuneFactor : α

/-- The externally owned parameter block `OscillatorVoiceParams` (`mVoiceParams`). -/
structure OscillatorVoiceParams (α τ A : Type) where
  mAdsr : A
  mVol : α
  mPulseWidth : α
  mSync : Bool
  mSyncFreq : α
  mMult : α
  mOscType : τ
  mDetune : α
  mShuffle : α
  mPhaseOffset : α
  mUnison : Int
  mUnisonWidth : α
  mFilterAdsr : A
  mFilterCutoff : α

/-- The members of `SingleOscillatorVoice`.  `mOscData` is the unison slot array; only
indices below `kMaxUnison` exist in the C++ object. -/
structure Voice (α τ A F : Type) where
  mStartTime : α
  mUseFilter : Bool
  mOscData : Nat → OscData α τ
  mAdsr : A
  mFilterAdsr : A
  mFilterLeft : F
  mFilterRight : F

/-- The output sink `ChannelBuffer`: `BufferSize()`, `NumActiveChannels()` and the
per-channel sample storage reached through `GetChannel(c)[pos]`. -/
structure ChannelBuffer (α : Type) where
  mBufferSize : Nat
  mActiveChannels : Nat
  mBuffers : Nat → Nat → α

/-- The filter type enumerator used by this file. -/
inductive FilterType where
  | kFilterType_Lowpass
  deriving DecidableEq, Repr

/-- Everything `SingleOscillatorVoice.cpp` uses but does not define. -/
structure Env (α τ A F G : Type) where
  /-- capacity of the unison slot array -/
  kMaxUnison : Nat
  /-- the constant `FTWO_PI` -/
  FTWO_PI : α
  /-- the constant `SINGLEOSCILLATOR_NO_CUTOFF` -/
  SINGLEOSCILLATOR_NO_CUTOFF : α
  /-- the global `gInvSampleRateMs` -/
  gInvSampleRateMs : α
  /-- `GetPhaseInc(freq)` -/
  GetPhaseInc : α → α
  /-- `TheScale->PitchToFreq(pitch)` -/
  PitchToFreq : α → α
  /-- `GetPitch(pos)` of the voice base class -/
  GetPitch : Nat → α
  /-- `GetPan()` of the voice base class -/
  GetPan : α
  GetLeftPanGain : α → α
  GetRightPanGain : α → α
  /-- `EnvOscillator::Value(phase)` for given oscillator settings -/
  oscValue : EnvOscillator α τ → α → α
  /-- `ADSR::IsDone(time)` -/
  adsrIsDone : A → α → Bool
  /-- `ADSR::Value(time)` -/
  adsrValue : A → α → α
  /-- `ADSR::Start(time, target, adsr)` -/
  adsrStartFrom : A → α → α → A → A
  /-- `ADSR::Start(time, target)` -/
  adsrStart : A → α → α → A
  /-- `ADSR::Stop(time)` -/
  adsrStop : A → α → A
  /-- `ADSR::Clear()` -/
  adsrClear : A → A
  GetA : A → α
  GetS : A → α
  GetR : A → α
  /-- `BiquadFilter::SetFilterType` -/
  SetFilterType : F → FilterType → F
  /-- `BiquadFilter::SetFilterParams(f, q)` -/
  SetFilterParams : F → α → α → F
  /-- `BiquadFilter::Filter(sample)`: the filtered sample and the new filter state -/
  Filter : F → α → α × F
  /-- `ofRandom(lo, hi)`: a draw and the next generator state -/
  ofRandom : α → α → G → α × G
  /-- `mOwner`: when present, `mOwner->ComputeSliders(pos)` may rewrite the parameters -/
  mOwner : Option (Nat → OscillatorVoiceParams α τ A → OscillatorVoiceParams α τ A)

section Code

variable {α τ A F G : Type}
variable [Add α] [Sub α] [Mul α] [Neg α] [Zero α] [One α] [NatCast α] [OfScientific α]
variable [LT α] [∀ a b : α, Decidable (a < b)] [BEq α]

/-- `SingleOscillatorVoice::IsDone` (lines 27-30). -/
def IsDone (env : Env α τ A F G) (v : Voice α τ A F) (time : α) : Bool :=
  env.adsrIsDone v.mAdsr time

/-- Lines 39-40: `for (u=0; u<mUnison && u<kMaxUnison; ++u) mOscData[u].mOsc.SetType(mOscType)`. -/
def setTypeLoop (env : Env α τ A F G) (p : OscillatorVoiceParams α τ A)
    (u : Nat) (osc : Nat → OscData α τ) : Nat → OscData α τ :=
  if (u : Int) < p.mUnison ∧ u < env.kMaxUnison then
    setTypeLoop env p (u + 1)
      (Function.update osc u
        { osc u with mOsc := { (osc u).mOsc with mType := p.mOscType } })
  else osc
termination_by env.kMaxUnison - u
decreasing_by omega

/-- Lines 70-74: `while (mPhase > FTWO_PI*2) { mPhase -= FTWO_PI*2; mSyncPhase = 0; }`.
The result is the pair `(mPhase, mSyncPhase)`; `none` when `fuel` iterations were not
enough to leave the loop. -/
def wrapPhase (env : Env α τ A F G) : Nat → α → α → Option (α × α)
  | 0, phase, syncPhase =>
    if phase > env.FTWO_PI * ((2 : Nat) : α) then none else some (phase, syncPhase)
  | fuel + 1, phase, syncPhase =>
    if phase > env.FTWO_PI * ((2 : Nat) : α) then
      wrapPhase env fuel (phase - env.FTWO_PI * ((2 : Nat) : α)) 0
    else some (phase, syncPhase)

/-- Lines 56-75 for slot `u`: push pulse width and shuffle into the oscillator, compute
the phase increment, advance and wrap `mPhase`, advance `mSyncPhase`. -/
def advanceSlot (env : Env α τ A F G) (fuel : Nat) (p : OscillatorVoiceParams α τ A)
    (syncPhaseInc : α) (pos : Nat) (d : OscData α τ) : Option (OscData α τ) :=
  let osc : EnvOscillator α τ :=
    { d.mOsc with mPulseWidth := p.mPulseWidth, mShuffle := p.mShuffle }
  let pitch := env.GetPitch pos
  let freq := env.PitchToFreq pitch * p.mMult
  let detune := ((p.mDetune - 1) * d.mDetuneFactor) + 1
  let phaseInc := env.GetPhaseInc (freq * detune)
  match wrapPhase env fuel (d.mPhase + phaseInc) d.mSyncPhase with
  | none => none
  | some (phase, syncPhase) =>
    some { d with mOsc := osc, mPhase := phase, mSyncPhase := syncPhase + syncPhaseInc }

/-- Lines 77-83, evaluated on the slot after `advanceSlot`: the sample before the unison
gain. -/
def rawSample (env : Env α τ A F G) (p : OscillatorVoiceParams α τ A)
    (adsrVal : α) (d : OscData α τ) : α :=
  let vol := p.mVol * (0.1 : α)
  if p.mSync then env.oscValue d.mOsc d.mSyncPhase * adsrVal * vol
  else env.oscValue d.mOsc (d.mPhase + p.mPhaseOffset) * adsrVal * vol

/-- Lines 77-86 for slot `u`: `rawSample`, then `if (u >= 2) sample *= 1 - (mDetuneFactor * .5f)`. -/
def slotSample (env : Env α τ A F G) (p : OscillatorVoiceParams α τ A)
    (adsrVal : α) (u : Nat) (d : OscData α τ) : α :=
  let sample := rawSample env p adsrVal d
  if u ≥ 2 then sample * (1 - (d.mDetuneFactor * (0.5 : α))) else sample

/-- Lines 94-102: the pan position of slot `u` inside the unison stack. -/
def unisonPan (p : OscillatorVoiceParams α τ A) (u : Nat) (d : OscData α τ) : α :=
  if p.mUnison = 1 then 0
  else if u = 0 then -1
  else if u = 1 then 1
  else d.mDetuneFactor

/-- Lines 88-106: accumulate one slot's sample into the running sums
`(summedLeft, summedRight)`. -/
def mixSlot (env : Env α τ A F G) (p : OscillatorVoiceParams α τ A) (mono : Bool)
    (u : Nat) (d : OscData α τ) (sample : α) (sums : α × α) : α × α :=
  if mono then (sums.1 + sample, sums.2)
  else
    let pan := env.GetPan + unisonPan p u d * p.mUnisonWidth
    (sums.1 + sample * env.GetLeftPanGain pan, sums.2 + sample * env.GetRightPanGain pan)

/-- State of the unison loop: the slot array and the sums `(summedLeft, summedRight)`. -/
abbrev UnisonAcc (α τ : Type) := (Nat → OscData α τ) × (α × α)

/-- Body of the unison loop (lines 56-106) for slot `u`. -/
def slotStep (env : Env α τ A F G) (fuel : Nat) (p : OscillatorVoiceParams α τ A)
    (mono : Bool) (syncPhaseInc adsrVal : α) (pos u : Nat) (acc : UnisonAcc α τ) :
    Option (UnisonAcc α τ) :=
  match advanceSlot env fuel p syncPhaseInc pos (acc.1 u) with
  | none => none
  | some d =>
    some (Function.update acc.1 u d,
          mixSlot env p mono u d (slotSample env p adsrVal u d) acc.2)

/-- Lines 54-107: `for (int u=0; u<mVoiceParams->mUnison && u<kMaxUnison; ++u) { ... }`. -/
def unisonLoop (env : Env α τ A F G) (fuel : Nat) (p : OscillatorVoiceParams α τ A)
    (mono : Bool) (syncPhaseInc adsrVal : α) (pos : Nat) (u : Nat) (acc : UnisonAcc α τ) :
    Option (UnisonAcc α τ) :=
  if (u : Int) < p.mUnison ∧ u < env.kMaxUnison then
    match slotStep env fuel p mono syncPhaseInc adsrVal pos u acc with
    | none => none
    | some acc1 => unisonLoop env fuel p mono syncPhaseInc adsrVal pos (u + 1) acc1
  else some acc
termination_by env.kMaxUnison - u
decreasing_by omega

/-- Lines 109-120: the optional filter stage.  Returns the filter states and the sums. -/
def filterStage (env : Env α τ A F G) (p : OscillatorVoiceParams α τ A) (mono : Bool)
    (time : α) (v : Voice α τ A F) (sums : α × α) : F × F × (α × α) :=
  if v.mUseFilter then
    let f := env.adsrValue v.mFilterAdsr time * p.mFilterCutoff
    let q : α := 1
    let l := env.Filter (env.SetFilterParams v.mFilterLeft f q) sums.1
    if !mono then
      let r := env.Filter (env.SetFilterParams v.mFilterRight f q) sums.2
      (l.2, r.2, (l.1, r.1))
    else (l.2, v.mFilterRight, (l.1, sums.2))
  else (v.mFilterLeft, v.mFilterRight, sums)

/-- Lines 122-130: `out->GetChannel(c)[pos] += ...`. -/
def writeOut (mono : Bool) (pos : Nat) (sums : α × α) (out : ChannelBuffer α) :
    ChannelBuffer α :=
  if mono then
    let b0 := Function.update out.mBuffers 0
      (Function.update (out.mBuffers 0) pos (out.mBuffers 0 pos + sums.1))
    { out with mBuffers := b0 }
  else
    let b0 := Function.update out.mBuffers 0
      (Function.update (out.mBuffers 0) pos (out.mBuffers 0 pos + sums.1))
    let b1 := Function.update b0 1 (Function.update (b0 1) pos (b0 1 pos + sums.2))
    { out with mBuffers := b1 }

/-- State of the sample loop: local `time`, the output buffer, the parameter block (the
owner callback may rewrite it) and the voice. -/
structure RenderState (α τ A F : Type) where
  time : α
  out : ChannelBuffer α
  params : OscillatorVoiceParams α τ A
  voice : Voice α τ A F

/-- Lines 47-48: `if (mOwner) mOwner->ComputeSliders(pos);`. -/
def computeSliders (env : Env α τ A F G) (pos : Nat) (p : OscillatorVoiceParams α τ A) :
    OscillatorVoiceParams α τ A :=
  match env.mOwner with
  | some owner => owner pos p
  | none => p

/-- Lines 47-120 at position `pos`: owner callback, envelope value, unison loop and filter
stage.  Returns the parameter block after the callback, the voice after the step and the
(filtered) sums `(summedLeft, summedRight)`. -/
def renderSample (env : Env α τ A F G) (fuel : Nat) (mono : Bool) (syncPhaseInc : α)
    (pos : Nat) (s : RenderState α τ A F) :
    Option (OscillatorVoiceParams α τ A × Voice α τ A F × (α × α)) :=
  let p := computeSliders env pos s.params
  let adsrVal := env.adsrValue s.voice.mAdsr s.time
  match unisonLoop env fuel p mono syncPhaseInc adsrVal pos 0 (s.voice.mOscData, (0, 0)) with
  | none => none
  | some (osc, sums) =>
    let v1 : Voice α τ A F := { s.voice with mOscData := osc }
    let fs := filterStage env p mono s.time v1 sums
    some (p, { v1 with mFilterLeft := fs.1, mFilterRight := fs.2.1 }, fs.2.2)

/-- Body of the sample loop (lines 47-131) at position `pos`: `renderSample`, the write
into the output buffer, and `time += gInvSampleRateMs`. -/
def sampleStep (env : Env α τ A F G) (fuel : Nat) (mono : Bool) (syncPhaseInc : α)
    (pos : Nat) (s : RenderState α τ A F) : Option (RenderState α τ A F) :=
  match renderSample env fuel mono syncPhaseInc pos s with
  | none => none
  | some (p, v, sums) =>
    some { time := s.time + env.gInvSampleRateMs,
           out := writeOut mono pos sums s.out,
           params := p,
           voice := v }

/-- Lines 45-132: `for (int pos=0; pos<out->BufferSize(); ++pos) { ... }`.  The loop body
writes samples only, so `out->BufferSize()` is the same number `bufferSize` in every
evaluation of the loop condition. -/
def posLoop (env : Env α τ A F G) (fuel : Nat) (mono : Bool) (syncPhaseInc : α)
    (bufferSize : Nat) (pos : Nat) (s : RenderState α τ A F) :
    Option (RenderState α τ A F) :=
  if pos < bufferSize then
    match sampleStep env fuel mono syncPhaseInc pos s with
    | none => none
    | some s1 => posLoop env fuel mono syncPhaseInc bufferSize (pos + 1) s1
  else some s
termination_by bufferSize - pos
decreasing_by omega

/-- `SingleOscillatorVoice::Process` (lines 32-135).  The result is the returned `bool`
together with the final render state; `none` when some phase-wrap loop did not finish
within `fuel` iterations. -/
def Process (env : Env α τ A F G) (fuel : Nat) (time : α) (out : ChannelBuffer α)
    (p : OscillatorVoiceParams α τ A) (v : Voice α τ A F) :
    Option (Bool × RenderState α τ A F) :=
  if IsDone env v time then
    some (false, { time := time, out := out, params := p, voice := v })
  else
    let v1 : Voice α τ A F := { v with mOscData := setTypeLoop env p 0 v.mOscData }
    let mono := decide (out.mActiveChannels = 1)
    let syncPhaseInc := env.GetPhaseInc p.mSyncFreq
    match posLoop env fuel mono syncPhaseInc out.mBufferSize 0
        { time := time, out := out, params := p, voice := v1 } with
    | none => none
    | some s => some (true, s)

/-- `SingleOscillatorVoice::Start` (lines 137-157). -/
def Start (env : Env α τ A F G) (time target : α) (p : OscillatorVoiceParams α τ A)
    (v : Voice α τ A F) : Voice α τ A F :=
  let v1 : Voice α τ A F :=
    { v with mAdsr := env.adsrStartFrom v.mAdsr time target p.mAdsr, mStartTime := time }
  if (p.mFilterCutoff != env.SINGLEOSCILLATOR_NO_CUTOFF) = true ∨
      env.GetA p.mFilterAdsr > 1 ∨
      env.GetS p.mFilterAdsr < 1 ∨
      env.GetR p.mFilterAdsr > ((30 : Nat) : α) then
    { v1 with
      mUseFilter := true,
      mFilterLeft := env.SetFilterType v1.mFilterLeft FilterType.kFilterType_Lowpass,
      mFilterRight := env.SetFilterType v1.mFilterRight FilterType.kFilterType_Lowpass,
      mFilterAdsr := env.adsrStart p.mFilterAdsr time 1 }
  else
    { v1 with mUseFilter := false }

/-- `SingleOscillatorVoice::Stop` (lines 159-162). -/
def Stop (env : Env α τ A F G) (time : α) (v : Voice α τ A F) : Voice α τ A F :=
  { v with mAdsr := env.adsrStop v.mAdsr time }

/-- Lines 168-172: `for (u=0; u<kMaxUnison; ++u) { mPhase = 0; mSyncPhase = 0; }`. -/
def clearPhaseLoop (env : Env α τ A F G) (u : Nat) (osc : Nat → OscData α τ) :
    Nat → OscData α τ :=
  if u < env.kMaxUnison then
    clearPhaseLoop env (u + 1)
      (Function.update osc u { osc u with mPhase := 0, mSyncPhase := 0 })
  else osc
termination_by env.kMaxUnison - u
decreasing_by omega

/-- Lines 177-178: `for (u=2; u<kMaxUnison; ++u) mDetuneFactor = ofRandom(-1,1)`. -/
def randomDetuneLoop (env : Env α τ A F G) (u : Nat) (acc : (Nat → OscData α τ) × G) :
    (Nat → OscData α τ) × G :=
  if u < env.kMaxUnison then
    let r := env.ofRandom (-1) 1 acc.2
    randomDetuneLoop env (u + 1)
      (Function.update acc.1 u { acc.1 u with mDetuneFactor := r.1 }, r.2)
  else acc
termination_by env.kMaxUnison - u
decreasing_by omega

/-- `SingleOscillatorVoice::ClearVoice` (lines 164-179); the random generator state is
passed in and returned. -/
def ClearVoice (env : Env α τ A F G) (g : G) (v : Voice α τ A F) : Voice α τ A F × G :=
  let osc1 := clearPhaseLoop env 0 v.mOscData
  let osc2 := Function.update osc1 0 { osc1 0 with mDetuneFactor := 1 }
  let osc3 := Function.update osc2 1 { osc2 1 with mDetuneFactor := 0 }
  let r := randomDetuneLoop env 2 (osc3, g)
  ({ v with mAdsr := env.adsrClear v.mAdsr,
            mFilterAdsr := env.adsrClear v.mFilterAdsr,
            mOscData := r.1 }, r.2)

end Code

/-! ## Auxiliary definitions used to state the properties -/

/-- Apply `body` at the `n` consecutive indices `u, u+1, ..., u+n-1`, in this order,
stopping with `none` as soon as one application yields `none`. -/
def stepRange {S : Type} (body : Nat → S → Option S) : Nat → Nat → S → Option S
  | 0, _, s => some s
  | n + 1, u, s =>
    match body u s with
    | none => none
    | some s1 => stepRange body n (u + 1) s1

/-- The number of unison slots the specification says are processed:
`min(params.unison, kMaxUnison)`, and none when that is not positive. -/
def unisonCount {α τ A F G : Type} (env : Env α τ A F G) (p : OscillatorVoiceParams α τ A) :
    Nat :=
  (min p.mUnison (env.kMaxUnison : Int)).toNat

/-- What one sample step leaves alone: the filter decision, both envelopes, the start
time, every detune factor, every slot beyond the array capacity, and the shape of the
output buffer. -/
def StepFrame {α τ A F G : Type} (env : Env α τ A F G) (s s1 : RenderState α τ A F) : Prop :=
  s1.voice.mUseFilter = s.voice.mUseFilter ∧
  s1.voice.mAdsr = s.voice.mAdsr ∧
  s1.voice.mFilterAdsr = s.voice.mFilterAdsr ∧
  s1.voice.mStartTime = s.voice.mStartTime ∧
  (∀ j, (s1.voice.mOscData j).mDetuneFactor = (s.voice.mOscData j).mDetuneFactor) ∧
  (∀ j, env.kMaxUnison ≤ j → s1.voice.mOscData j = s.voice.mOscData j) ∧
  s1.out.mBufferSize = s.out.mBufferSize ∧
  s1.out.mActiveChannels = s.out.mActiveChannels

/-- One call made on a voice by its owner, with the arguments of that call. -/
inductive VoiceCall (α τ A : Type) where
  | start (time target : α) (p : OscillatorVoiceParams α τ A)
  | stop (time : α)
  | process (time : α) (out : ChannelBuffer α) (p : OscillatorVoiceParams α τ A)
  | clearVoice

section Calls

variable {α τ A F G : Type}
variable [Add α] [Sub α] [Mul α] [Neg α] [Zero α] [One α] [NatCast α] [OfScientific α]
variable [LT α] [∀ a b : α, Decidable (a < b)] [BEq α]

/-- Perform one call on the voice; the random generator state is threaded along. -/
def runCall (env : Env α τ A F G) (fuel : Nat) :
    VoiceCall α τ A → Voice α τ A F × G → Option (Voice α τ A F × G)
  | .start time target p, s => some (Start env time target p s.1, s.2)
  | .stop time, s => some (Stop env time s.1, s.2)
  | .process time out p, s =>
    match Process env fuel time out p s.1 with
    | none => none
    | some r => some (r.2.voice, s.2)
  | .clearVoice, s => some (ClearVoice env s.2 s.1)

/-- Perform a sequence of calls, first to last. -/
def runCalls (env : Env α τ A F G) (fuel : Nat) :
    List (VoiceCall α τ A) → Voice α τ A F × G → Option (Voice α τ A F × G)
  | [], s => some s
  | c :: cs, s =>
    match runCall env fuel c s with
    | none => none
    | some s1 => runCalls env fuel cs s1

end Calls

/-- Detune pinning: slot 0 has detune factor 1, slot 1 has 0, and every further slot of
the array has a detune factor in `[-1,1]`. -/
def DetunePinned {α τ A F G : Type} [LE α] [Neg α] [Zero α] [One α]
    (env : Env α τ A F G) (v : Voice α τ A F) : Prop :=
  (v.mOscData 0).mDetuneFactor = 1 ∧ (v.mOscData 1).mDetuneFactor = 0 ∧
  ∀ u, 2 ≤ u → u < env.kMaxUnison →
    -1 ≤ (v.mOscData u).mDetuneFactor ∧ (v.mOscData u).mDetuneFactor ≤ 1

/-- Every slot of the array has its phase in `[0, FTWO_PI*2]`, a non-negative sync phase
and a detune factor in `[-1,1]`. -/
def SlotsBounded {α τ A F G : Type} [LinearOrderedField α]
    (env : Env α τ A F G) (v : Voice α τ A F) : Prop :=
  ∀ u, u < env.kMaxUnison →
    0 ≤ (v.mOscData u).mPhase ∧ (v.mOscData u).mPhase ≤ env.FTWO_PI * 2 ∧
    0 ≤ (v.mOscData u).mSyncPhase ∧
    -1 ≤ (v.mOscData u).mDetuneFactor ∧ (v.mOscData u).mDetuneFactor ≤ 1

/-- Parameters that never produce a negative frequency: non-negative multiplier and sync
frequency, detune depth in `[0,2]`. -/
def NonNegParams {α τ A : Type} [LinearOrderedField α]
    (p : OscillatorVoiceParams α τ A) : Prop :=
  0 ≤ p.mMult ∧ 0 ≤ p.mDetune ∧ p.mDetune ≤ 2 ∧ 0 ≤ p.mSyncFreq

/-- A fuel-indexed computation `g` converges to `r`: from some fuel on it returns `r`. -/
def Converges {β : Type} (g : Nat → Option β) (r : β) : Prop :=
  ∃ f0, ∀ f, f0 ≤ f → g f = some r

/-! ## Concrete collaborators, used to instantiate the theorems at concrete inputs -/

/-- A gate envelope without ramps: it holds a level and a done flag, together with the
shape parameters `A`, `S`, `R` that `Start` inspects. -/
structure GateADSR (α : Type) where
  mA : α
  mS : α
  mR : α
  mLevel : α
  mDone : Bool

section Fixtures

variable {α : Type}
variable [Add α] [Sub α] [Mul α] [Neg α] [Zero α] [One α] [NatCast α] [OfScientific α]

/-- A concrete environment: eight unison slots, constant pitch `69`, linear pan gains, a
gate envelope, a one-multiplier filter (its state is the cutoff last set, its output the
sample times that state), a counter as random generator state and no owner.  The numeric
collaborators are arguments. -/
def demoEnv (twoPi invSampleRateMs : α) (phaseInc pitchToFreq osc : α → α)
    (rnd : Nat → α) : Env α Nat (GateADSR α) α Nat where
  kMaxUnison := 8
  FTWO_PI := twoPi
  SINGLEOSCILLATOR_NO_CUTOFF := ((10000 : Nat) : α)
  gInvSampleRateMs := invSampleRateMs
  GetPhaseInc := phaseInc
  PitchToFreq := pitchToFreq
  GetPitch := fun _ => ((69 : Nat) : α)
  GetPan := 0
  GetLeftPanGain := fun pan => 1 - pan
  GetRightPanGain := fun pan => 1 + pan
  oscValue := fun _ x => osc x
  adsrIsDone := fun a _ => a.mDone
  adsrValue := fun a _ => a.mLevel
  adsrStartFrom := fun _ _ target shape => { shape with mLevel := target, mDone := false }
  adsrStart := fun a _ target => { a with mLevel := target, mDone := false }
  adsrStop := fun a _ => { a with mLevel := 0, mDone := true }
  adsrClear := fun a => { a with mLevel := 0, mDone := true }
  GetA := fun a => a.mA
  GetS := fun a => a.mS
  GetR := fun a => a.mR
  SetFilterType := fun f _ => f
  SetFilterParams := fun _ f _ => f
  Filter := fun f x => (x * f, f)
  ofRandom := fun _ _ g => (rnd g, g + 1)
  mOwner := none

/-- An envelope shape with no audible modulation, sounding at level `1`. -/
def demoADSR : GateADSR α :=
  { mA := 1, mS := 1, mR := ((30 : Nat) : α), mLevel := 1, mDone := false }

/-- A parameter block: sine (`0`), the given unison count and sync frequency, multiplier
`1`, detune depth `1`, phase offset `0`, no hard sync, volume `1`, no filter cutoff. -/
def demoParams (unison : Int) (syncFreq : α) : OscillatorVoiceParams α Nat (GateADSR α) where
  mAdsr := demoADSR
  mVol := 1
  mPulseWidth := (0.5 : α)
  mSync := false
  mSyncFreq := syncFreq
  mMult := 1
  mOscType := 0
  mDetune := 1
  mShuffle := 0
  mPhaseOffset := 0
  mUnison := unison
  mUnisonWidth := 0
  mFilterAdsr := demoADSR
  mFilterCutoff := ((10000 : Nat) : α)

/-- A slot with the given phase, sync phase and detune factor. -/
def demoSlot (phase syncPhase detuneFactor : α) : OscData α Nat where
  mOsc := { mType := 0, mPulseWidth := (0.5 : α), mShuffle := 0 }
  mPhase := phase
  mSyncPhase := syncPhase
  mDetuneFactor := detuneFactor

/-- A sounding voice whose slots all have phase `0`, sync phase `0`; slot 0 has detune
factor `1`, the others `0`. -/
def demoVoice : Voice α Nat (GateADSR α) α where
  mStartTime := 0
  mUseFilter := false
  mOscData := fun u => if u = 0 then demoSlot 0 0 1 else demoSlot 0 0 0
  mAdsr := demoADSR
  mFilterAdsr := demoADSR
  mFilterLeft := 0
  mFilterRight := 0

/-- A voice whose amplitude envelope has completed. -/
def doneVoice : Voice α Nat (GateADSR α) α :=
  { (demoVoice : Voice α Nat (GateADSR α) α) with
    mAdsr := { (demoADSR : GateADSR α) with mLevel := 0, mDone := true } }

/-- A silent output buffer with the given size and number of active channels. -/
def demoBuffer (size channels : Nat) : ChannelBuffer α where
  mBufferSize := size
  mActiveChannels := channels
  mBuffers := fun _ _ => 0

end Fixtures

/-- The concrete environment over `ℚ`: `FTWO_PI = 6.283185`, sample rate 44100 Hz, pitch
69 mapped to 440 Hz, and an oscillator whose value is its phase argument. -/
def envQ : Env ℚ Nat (GateADSR ℚ) ℚ Nat :=
  demoEnv (6283185 / 1000000) (1000 / 44100) (fun f => f * ((6283185 / 1000000) / 44100))
    (fun _ => 440) (fun x => x) (fun _ => -1)

/-- The concrete environment of the end-to-end scenario over an ordered field, with the
number `π`, the sine function and the sample rate as arguments: `FTWO_PI = 2π`,
`GetPhaseInc(f) = 2π·f/sampleRate`, every pitch mapped to 440 Hz, a sine oscillator. -/
def sineEnv {α : Type} [LinearOrderedField α] (pi : α) (sin : α → α) (sampleRate : α) :
    Env α Nat (GateADSR α) α Nat :=
  demoEnv (2 * pi) (1000 / sampleRate) (fun f => 2 * pi * f / sampleRate)
    (fun _ => 440) sin (fun _ => 0)

/-! ## Numbers with the IEEE special values -/

/-- Exact rationals extended with the special values of IEEE floating point: `+∞`, `-∞`
and `NaN`.  Finite arithmetic is exact (no rounding, no overflow); the special values
follow the IEEE rules. -/
inductive XFloat where
  | fin (q : ℚ)
  | pinf
  | ninf
  | nan
  deriving DecidableEq

namespace XFloat

/-- IEEE addition on the special values, exact addition on finite values. -/
def add : XFloat → XFloat → XFloat
  | nan, _ => nan
  | _, nan => nan
  | fin a, fin b => fin (a + b)
  | fin _, pinf => pinf
  | fin _, ninf => ninf
  | pinf, fin _ => pinf
  | ninf, fin _ => ninf
  | pinf, pinf => pinf
  | ninf, ninf => ninf
  | pinf, ninf => nan
  | ninf, pinf => nan

/-- Negation. -/
def neg : XFloat → XFloat
  | fin a => fin (-a)
  | pinf => ninf
  | ninf => pinf
  | nan => nan

/-- Subtraction: `a - b = a + (-b)`, so `+∞ - x = +∞` for every finite `x`. -/
def sub (a b : XFloat) : XFloat := add a (neg b)

/-- The sign of an infinite product: `+∞` for a positive finite factor, `-∞` for a
negative one, `NaN` for zero. -/
def infTimes (positive : Bool) (a : ℚ) : XFloat :=
  if 0 < a then (if positive then pinf else ninf)
  else if a < 0 then (if positive then ninf else pinf)
  else nan

/-- IEEE multiplication on the special values, exact multiplication on finite values. -/
def mul : XFloat → XFloat → XFloat
  | nan, _ => nan
  | _, nan => nan
  | fin a, fin b => fin (a * b)
  | fin a, pinf => infTimes true a
  | fin a, ninf => infTimes false a
  | pinf, fin b => infTimes true b
  | ninf, fin b => infTimes false b
  | pinf, pinf => pinf
  | ninf, ninf => pinf
  | pinf, ninf => ninf
  | ninf, pinf => ninf

/-- The IEEE comparison `a < b`: false whenever a `NaN` is involved. -/
def lt : XFloat → XFloat → Bool
  | fin a, fin b => decide (a < b)
  | fin _, pinf => true
  | ninf, fin _ => true
  | ninf, pinf => true
  | _, _ => false

/-- The IEEE comparison `a <= b`: false whenever a `NaN` is involved. -/
def le : XFloat → XFloat → Bool
  | fin a, fin b => decide (a ≤ b)
  | fin _, pinf => true
  | ninf, fin _ => true
  | ninf, pinf => true
  | pinf, pinf => true
  | ninf, ninf => true
  | _, _ => false

/-- The IEEE comparison `a == b`: `NaN` equals nothing. -/
def beq : XFloat → XFloat → Bool
  | fin a, fin b => decide (a = b)
  | pinf, pinf => true
  | ninf, ninf => true
  | _, _ => false

instance : Add XFloat := ⟨add⟩
instance : Sub XFloat := ⟨sub⟩
instance : Mul XFloat := ⟨mul⟩
instance : Neg XFloat := ⟨neg⟩
instance : Zero XFloat := ⟨fin 0⟩
instance : One XFloat := ⟨fin 1⟩
instance : NatCast XFloat := ⟨fun n => fin n⟩
instance : OfScientific XFloat := ⟨fun m s e => fin (OfScientific.ofScientific m s e)⟩
instance : LT XFloat := ⟨fun a b => lt a b = true⟩
instance (a b : XFloat) : Decidable (a < b) := inferInstanceAs (Decidable (lt a b = true))
instance : LE XFloat := ⟨fun a b => le a b = true⟩
instance (a b : XFloat) : Decidable (a ≤ b) := inferInstanceAs (Decidable (le a b = true))
instance : BEq XFloat := ⟨beq⟩

end XFloat

/-- The concrete environment over `XFloat` in which the scale service maps the pitch to the
frequency `+∞` (a pitch whose frequency overflows); everything else is as in `envQ`. -/
def envInf : Env XFloat Nat (GateADSR XFloat) XFloat Nat :=
  demoEnv (XFloat.fin (6283185 / 1000000)) (XFloat.fin (1000 / 44100))
    (fun f => f * XFloat.fin ((6283185 / 1000000) / 44100))
    (fun _ => XFloat.pinf) (fun x => x) (fun _ => XFloat.fin (-1))

/-! ## Loop lemmas -/

section LoopLemmas

variable {α τ A F G : Type}
variable [Add α] [Sub α] [Mul α] [Neg α] [Zero α] [One α] [NatCast α] [OfScientific α]
variable [LT α] [∀ a b : α, Decidable (a < b)] [BEq α]

theorem unison_cond_iff (env : Env α τ A F G) (p : OscillatorVoiceParams α τ A) (u : Nat) :
    ((u : Int) < p.mUnison ∧ u < env.kMaxUnison) ↔ u < unisonCount env p := by
  unfold unisonCount
  omega

theorem unisonLoop_eq_stepRange (env : Env α τ A F G) (fuel : Nat)
    (p : OscillatorVoiceParams α τ A) (mono : Bool) (si av : α) (pos : Nat) :
    ∀ (n u : Nat) (acc : UnisonAcc α τ), unisonCount env p - u = n →
      unisonLoop env fuel p mono si av pos u acc =
        stepRange (slotStep env fuel p mono si av pos) n u acc := by
  intro n
  induction n with
  | zero =>
    intro u acc h
    have hc : ¬ ((u : Int) < p.mUnison ∧ u < env.kMaxUnison) := by
      rw [unison_cond_iff]; omega
    rw [unisonLoop, if_neg hc]; rfl
  | succ n ih =>
    intro u acc h
    have hc : ((u : Int) < p.mUnison ∧ u < env.kMaxUnison) := by
      rw [unison_cond_iff]; omega
    rw [unisonLoop, if_pos hc]
    simp only [stepRange]
    cases hb : slotStep env fuel p mono si av pos u acc with
    | none => rfl
    | some acc1 => exact ih (u + 1) acc1 (by omega)

theorem posLoop_eq_stepRange (env : Env α τ A F G) (fuel : Nat) (mono : Bool) (si : α)
    (bufferSize : Nat) :
    ∀ (n pos : Nat) (s : RenderState α τ A F), bufferSize - pos = n →
      posLoop env fuel mono si bufferSize pos s =
        stepRange (sampleStep env fuel mono si) n pos s := by
  intro n
  induction n with
  | zero =>
    intro pos s h
    have hc : ¬ pos < bufferSize := by omega
    rw [posLoop, if_neg hc]; rfl
  | succ n ih =>
    intro pos s h
    have hc : pos < bufferSize := by omega
    rw [posLoop, if_pos hc]
    simp only [stepRange]
    cases hb : sampleStep env fuel mono si pos s with
    | none => rfl
    | some s1 => exact ih (pos + 1) s1 (by omega)

theorem stepRange_invariant {S : Type} (body : Nat → S → Option S) (I : Nat → S → Prop) :
    ∀ (n u : Nat) (s s1 : S),
      (∀ i t t1, u ≤ i → i < u + n → I i t → body i t = some t1 → I (i + 1) t1) →
      I u s → stepRange body n u s = some s1 → I (u + n) s1 := by
  intro n
  induction n with
  | zero =>
    intro u s s1 _ h0 h
    simp only [stepRange, Option.some.injEq] at h
    subst h; simpa using h0
  | succ n ih =>
    intro u s s1 hstep h0 h
    simp only [stepRange] at h
    cases hb : body u s with
    | none => rw [hb] at h; cases h
    | some t =>
      rw [hb] at h
      have h1 : I (u + 1) t := hstep u s t (Nat.le_refl u) (by omega) h0 hb
      have := ih (u + 1) t s1
        (fun i a b hi1 hi2 => hstep i a b (by omega) (by omega)) h1 h
      have e : u + (n + 1) = u + 1 + n := by omega
      rw [e]; exact this

theorem Converges.pure {β : Type} (r : β) : Converges (fun _ => some r) r :=
  ⟨0, fun _ _ => rfl⟩

theorem Converges.bind {β γ : Type} {g : Nat → Option β} {h : Nat → β → Option γ}
    {r : β} {t : γ} (hg : Converges g r) (hh : Converges (fun f => h f r) t) :
    Converges (fun f => match g f with | none => none | some x => h f x) t := by
  obtain ⟨a, ha⟩ := hg
  obtain ⟨b, hb⟩ := hh
  refine ⟨max a b, fun f hf => ?_⟩
  have e1 := ha f (le_trans (le_max_left a b) hf)
  have e2 := hb f (le_trans (le_max_right a b) hf)
  simp only [e1]
  exact e2

theorem stepRange_converges {S : Type} (body : Nat → Nat → S → Option S)
    (hbody : ∀ i s, ∃ r, Converges (fun f => body f i s) r) :
    ∀ (n u : Nat) (s : S), ∃ r, Converges (fun f => stepRange (body f) n u s) r := by
  intro n
  induction n with
  | zero => intro u s; exact ⟨s, Converges.pure s⟩
  | succ n ih =>
    intro u s
    obtain ⟨r, hr⟩ := hbody u s
    obtain ⟨t, ht⟩ := ih (u + 1) r
    exact ⟨t, Converges.bind hr ht⟩

theorem wrapPhase_succ (env : Env α τ A F G) :
    ∀ (fuel : Nat) (phase syncPhase : α) (r : α × α),
      wrapPhase env fuel phase syncPhase = some r →
      wrapPhase env (fuel + 1) phase syncPhase = some r := by
  intro fuel
  induction fuel with
  | zero =>
    intro phase syncPhase r h
    simp only [wrapPhase] at h ⊢
    split at h
    · cases h
    · rename_i hc; rw [if_neg hc]; exact h
  | succ n ih =>
    intro phase syncPhase r h
    rw [wrapPhase] at h ⊢
    split at h
    · rename_i hc; rw [if_pos hc]; exact ih _ _ _ h
    · rename_i hc; rw [if_neg hc]; exact h

theorem wrapPhase_mono (env : Env α τ A F G) (fuel k : Nat) (phase syncPhase : α)
    (r : α × α) (h : wrapPhase env fuel phase syncPhase = some r) :
    wrapPhase env (fuel + k) phase syncPhase = some r := by
  induction k with
  | zero => exact h
  | succ k ih => exact wrapPhase_succ env (fuel + k) phase syncPhase r ih

theorem wrapPhase_converges_of_some (env : Env α τ A F G) (fuel : Nat) (phase syncPhase : α)
    (r : α × α) (h : wrapPhase env fuel phase syncPhase = some r) :
    Converges (fun f => wrapPhase env f phase syncPhase) r := by
  refine ⟨fuel, fun f hf => ?_⟩
  obtain ⟨k, rfl⟩ := Nat.exists_eq_add_of_le hf
  exact wrapPhase_mono env fuel k phase syncPhase r h

theorem advanceSlot_spec (env : Env α τ A F G) (fuel : Nat)
    (p : OscillatorVoiceParams α τ A) (si : α) (pos : Nat) (d d1 : OscData α τ)
    (h : advanceSlot env fuel p si pos d = some d1) :
    ∃ r, wrapPhase env fuel
        (d.mPhase + env.GetPhaseInc (env.PitchToFreq (env.GetPitch pos) * p.mMult *
          ((p.mDetune - 1) * d.mDetuneFactor + 1))) d.mSyncPhase = some r ∧
      d1 = { d with mOsc := { d.mOsc with mPulseWidth := p.mPulseWidth,
                                          mShuffle := p.mShuffle },
                    mPhase := r.1, mSyncPhase := r.2 + si } := by
  simp only [advanceSlot] at h
  split at h
  · cases h
  · rename_i ph sy hw
    simp only [Option.some.injEq] at h
    exact ⟨(ph, sy), hw, h.symm⟩

theorem slotStep_spec (env : Env α τ A F G) (fuel : Nat)
    (p : OscillatorVoiceParams α τ A) (mono : Bool) (si av : α) (pos u : Nat)
    (acc acc1 : UnisonAcc α τ)
    (h : slotStep env fuel p mono si av pos u acc = some acc1) :
    ∃ d, advanceSlot env fuel p si pos (acc.1 u) = some d ∧
      acc1 = (Function.update acc.1 u d,
              mixSlot env p mono u d (slotSample env p av u d) acc.2) := by
  simp only [slotStep] at h
  split at h
  · cases h
  · rename_i d hd
    simp only [Option.some.injEq] at h
    exact ⟨d, hd, h.symm⟩

theorem unisonLoop_slots (env : Env α τ A F G) (fuel : Nat)
    (p : OscillatorVoiceParams α τ A) (mono : Bool) (si av : α) (pos : Nat)
    (acc acc1 : UnisonAcc α τ)
    (h : unisonLoop env fuel p mono si av pos 0 acc = some acc1) :
    (∀ j, unisonCount env p ≤ j → acc1.1 j = acc.1 j) ∧
    (∀ j, j < unisonCount env p →
      advanceSlot env fuel p si pos (acc.1 j) = some (acc1.1 j)) := by
  rw [unisonLoop_eq_stepRange env fuel p mono si av pos (unisonCount env p) 0 acc rfl] at h
  have key := stepRange_invariant (slotStep env fuel p mono si av pos)
    (fun i a => (∀ j, i ≤ j → a.1 j = acc.1 j) ∧
      (∀ j, j < i → advanceSlot env fuel p si pos (acc.1 j) = some (a.1 j)))
    (unisonCount env p) 0 acc acc1 ?_ ?_ h
  · simpa using key
  · intro i t t1 _ _ hI ht
    obtain ⟨d, hd, rfl⟩ := slotStep_spec env fuel p mono si av pos i t t1 ht
    obtain ⟨h1, h2⟩ := hI
    constructor
    · intro j hj
      have hne : j ≠ i := by omega
      simp only [Function.update_noteq hne]
      exact h1 j (by omega)
    · intro j hj
      by_cases hji : j = i
      · subst hji
        simp only [Function.update_same]
        rw [← h1 j (Nat.le_refl j)]
        exact hd
      · simp only [Function.update_noteq hji]
        exact h2 j (by omega)
  · exact ⟨fun _ _ => rfl, fun j hj => absurd hj (Nat.not_lt_zero j)⟩

theorem unisonCount_le (env : Env α τ A F G) (p : OscillatorVoiceParams α τ A) :
    unisonCount env p ≤ env.kMaxUnison := by
  unfold unisonCount
  omega

theorem unisonLoop_frame (env : Env α τ A F G) (fuel : Nat)
    (p : OscillatorVoiceParams α τ A) (mono : Bool) (si av : α) (pos : Nat)
    (acc acc1 : UnisonAcc α τ)
    (h : unisonLoop env fuel p mono si av pos 0 acc = some acc1) :
    (∀ j, (acc1.1 j).mDetuneFactor = (acc.1 j).mDetuneFactor) ∧
    (∀ j, env.kMaxUnison ≤ j → acc1.1 j = acc.1 j) := by
  obtain ⟨h1, h2⟩ := unisonLoop_slots env fuel p mono si av pos acc acc1 h
  constructor
  · intro j
    by_cases hj : j < unisonCount env p
    · obtain ⟨r, _, e⟩ := advanceSlot_spec env fuel p si pos (acc.1 j) (acc1.1 j) (h2 j hj)
      rw [e]
    · rw [h1 j (by omega)]
  · intro j hj
    exact h1 j (le_trans (unisonCount_le env p) hj)

theorem renderSample_spec (env : Env α τ A F G) (fuel : Nat) (mono : Bool) (si : α)
    (pos : Nat) (s : RenderState α τ A F)
    (r : OscillatorVoiceParams α τ A × Voice α τ A F × (α × α))
    (h : renderSample env fuel mono si pos s = some r) :
    ∃ acc, unisonLoop env fuel (computeSliders env pos s.params) mono si
        (env.adsrValue s.voice.mAdsr s.time) pos 0 (s.voice.mOscData, (0, 0)) = some acc ∧
      r = (computeSliders env pos s.params,
           { s.voice with
             mOscData := acc.1,
             mFilterLeft := (filterStage env (computeSliders env pos s.params) mono s.time
               { s.voice with mOscData := acc.1 } acc.2).1,
             mFilterRight := (filterStage env (computeSliders env pos s.params) mono s.time
               { s.voice with mOscData := acc.1 } acc.2).2.1 },
           (filterStage env (computeSliders env pos s.params) mono s.time
               { s.voice with mOscData := acc.1 } acc.2).2.2) := by
  simp only [renderSample] at h
  split at h
  · cases h
  · rename_i osc sums hu
    simp only [Option.some.injEq] at h
    exact ⟨(osc, sums), hu, h.symm⟩

theorem sampleStep_spec (env : Env α τ A F G) (fuel : Nat) (mono : Bool) (si : α)
    (pos : Nat) (s s1 : RenderState α τ A F)
    (h : sampleStep env fuel mono si pos s = some s1) :
    ∃ r, renderSample env fuel mono si pos s = some r ∧
      s1 = { time := s.time + env.gInvSampleRateMs,
             out := writeOut mono pos r.2.2 s.out,
             params := r.1,
             voice := r.2.1 } := by
  simp only [sampleStep] at h
  split at h
  · cases h
  · rename_i p v sums hr
    simp only [Option.some.injEq] at h
    exact ⟨(p, v, sums), hr, h.symm⟩

theorem writeOut_size (mono : Bool) (pos : Nat) (sums : α × α) (out : ChannelBuffer α) :
    (writeOut mono pos sums out).mBufferSize = out.mBufferSize ∧
    (writeOut mono pos sums out).mActiveChannels = out.mActiveChannels := by
  unfold writeOut
  split <;> exact ⟨rfl, rfl⟩

theorem sampleStep_frame (env : Env α τ A F G) (fuel : Nat) (mono : Bool) (si : α)
    (pos : Nat) (s s1 : RenderState α τ A F)
    (h : sampleStep env fuel mono si pos s = some s1) : StepFrame env s s1 := by
  obtain ⟨r, hr, rfl⟩ := sampleStep_spec env fuel mono si pos s s1 h
  obtain ⟨acc, hacc, rfl⟩ := renderSample_spec env fuel mono si pos s r hr
  obtain ⟨h1, h2⟩ := unisonLoop_frame env fuel _ mono si _ pos _ acc hacc
  have hw := writeOut_size mono pos
    (filterStage env (computeSliders env pos s.params) mono s.time
      { s.voice with mOscData := acc.1 } acc.2).2.2 s.out
  exact ⟨rfl, rfl, rfl, rfl, h1, h2, hw.1, hw.2⟩

theorem StepFrame.refl (env : Env α τ A F G) (s : RenderState α τ A F) :
    StepFrame env s s :=
  ⟨rfl, rfl, rfl, rfl, fun _ => rfl, fun _ _ => rfl, rfl, rfl⟩

theorem StepFrame.trans (env : Env α τ A F G) {s s1 s2 : RenderState α τ A F}
    (h : StepFrame env s s1) (h1 : StepFrame env s1 s2) : StepFrame env s s2 := by
  obtain ⟨a1, a2, a3, a4, a5, a6, a7, a8⟩ := h
  obtain ⟨b1, b2, b3, b4, b5, b6, b7, b8⟩ := h1
  exact ⟨b1.trans a1, b2.trans a2, b3.trans a3, b4.trans a4,
    fun j => (b5 j).trans (a5 j), fun j hj => (b6 j hj).trans (a6 j hj),
    b7.trans a7, b8.trans a8⟩

theorem posLoop_frame (env : Env α τ A F G) (fuel : Nat) (mono : Bool) (si : α)
    (bufferSize : Nat) (s s1 : RenderState α τ A F)
    (h : posLoop env fuel mono si bufferSize 0 s = some s1) : StepFrame env s s1 := by
  rw [posLoop_eq_stepRange env fuel mono si bufferSize bufferSize 0 s rfl] at h
  exact stepRange_invariant (sampleStep env fuel mono si) (fun _ t => StepFrame env s t)
    bufferSize 0 s s1
    (fun i t t1 _ _ hI ht => StepFrame.trans env hI (sampleStep_frame env fuel mono si i t t1 ht))
    (StepFrame.refl env s) h

theorem setTypeLoop_eq (env : Env α τ A F G) (p : OscillatorVoiceParams α τ A) :
    ∀ (n u : Nat) (osc : Nat → OscData α τ), unisonCount env p - u = n →
      setTypeLoop env p u osc = fun i =>
        if u ≤ i ∧ i < unisonCount env p then
          { osc i with mOsc := { (osc i).mOsc with mType := p.mOscType } }
        else osc i := by
  intro n
  induction n with
  | zero =>
    intro u osc h
    have hc : ¬ ((u : Int) < p.mUnison ∧ u < env.kMaxUnison) := by
      rw [unison_cond_iff]; omega
    rw [setTypeLoop, if_neg hc]
    funext i
    have : ¬ (u ≤ i ∧ i < unisonCount env p) := by omega
    rw [if_neg this]
  | succ n ih =>
    intro u osc h
    have hc : ((u : Int) < p.mUnison ∧ u < env.kMaxUnison) := by
      rw [unison_cond_iff]; omega
    rw [setTypeLoop, if_pos hc, ih (u + 1) _ (by omega)]
    funext i
    by_cases hi : i = u
    · subst hi
      have h1 : ¬ (i + 1 ≤ i ∧ i < unisonCount env p) := by omega
      have h2 : (i ≤ i ∧ i < unisonCount env p) := by omega
      rw [if_neg h1, if_pos h2, Function.update_same]
    · rw [Function.update_noteq hi]
      by_cases h3 : u + 1 ≤ i ∧ i < unisonCount env p
      · have h4 : u ≤ i ∧ i < unisonCount env p := by omega
        rw [if_pos h3, if_pos h4]
      · have h4 : ¬ (u ≤ i ∧ i < unisonCount env p) := by omega
        rw [if_neg h3, if_neg h4]

/-- What a whole `Process` call leaves alone. -/
theorem Process_frame (env : Env α τ A F G) (fuel : Nat) (time : α) (out : ChannelBuffer α)
    (p : OscillatorVoiceParams α τ A) (v : Voice α τ A F) (r : Bool × RenderState α τ A F)
    (h : Process env fuel time out p v = some r) :
    StepFrame env { time := time, out := out, params := p, voice := v } r.2 := by
  simp only [Process] at h
  split at h
  · simp only [Option.some.injEq] at h
    subst h
    exact StepFrame.refl env _
  · split at h
    · cases h
    · rename_i s1 hs
      simp only [Option.some.injEq] at h
      subst h
      have hf := posLoop_frame env fuel _ _ _ _ s1 hs
      refine StepFrame.trans env ?_ hf
      refine ⟨rfl, rfl, rfl, rfl, ?_, ?_, rfl, rfl⟩
      · intro j
        rw [setTypeLoop_eq env p _ 0 v.mOscData rfl]
        simp only
        split <;> rfl
      · intro j hj
        rw [setTypeLoop_eq env p _ 0 v.mOscData rfl]
        have hc := unisonCount_le env p
        have : ¬ (0 ≤ j ∧ j < unisonCount env p) := by omega
        simp only [if_neg this]

theorem stepRange_rel {S : Type} (body : Nat → S → Option S) (R : S → S → Prop) :
    ∀ (n u : Nat) (s t : S),
      (∀ i a b, u ≤ i → i < u + n → R a b →
        (body i a = none ∧ body i b = none) ∨
        ∃ a1 b1, body i a = some a1 ∧ body i b = some b1 ∧ R a1 b1) →
      R s t →
      (stepRange body n u s = none ∧ stepRange body n u t = none) ∨
      ∃ s1 t1, stepRange body n u s = some s1 ∧ stepRange body n u t = some t1 ∧ R s1 t1 := by
  intro n
  induction n with
  | zero =>
    intro u s t _ h
    exact Or.inr ⟨s, t, rfl, rfl, h⟩
  | succ n ih =>
    intro u s t hstep h
    simp only [stepRange]
    rcases hstep u s t (Nat.le_refl u) (by omega) h with ⟨e1, e2⟩ | ⟨a1, b1, e1, e2, h1⟩
    · rw [e1, e2]; exact Or.inl ⟨rfl, rfl⟩
    · rw [e1, e2]
      exact ih (u + 1) a1 b1 (fun i a b hi1 hi2 => hstep i a b (by omega) (by omega)) h1

theorem filterStage_off (env : Env α τ A F G) (p : OscillatorVoiceParams α τ A)
    (mono : Bool) (time : α) (v : Voice α τ A F) (sums : α × α)
    (h : v.mUseFilter = false) :
    filterStage env p mono time v sums = (v.mFilterLeft, v.mFilterRight, sums) := by
  simp only [filterStage, h, Bool.false_eq_true, if_false]

end LoopLemmas

/-! ## Exact arithmetic: termination and the specification of the phase wrap -/

section Field

variable {α τ A F G : Type} [LinearOrderedField α]

theorem wrapPhase_bounded (env : Env α τ A F G) :
    ∀ (n : Nat) (phase syncPhase : α),
      phase ≤ ((n + 1 : Nat) : α) * (env.FTWO_PI * ((2 : Nat) : α)) →
      ∃ r, wrapPhase env n phase syncPhase = some r := by
  intro n
  induction n with
  | zero =>
    intro phase syncPhase h
    have hc : ¬ phase > env.FTWO_PI * ((2 : Nat) : α) := by
      simp only [zero_add, Nat.cast_one, one_mul] at h
      exact not_lt.mpr h
    exact ⟨(phase, syncPhase), by simp only [wrapPhase, if_neg hc]⟩
  | succ n ih =>
    intro phase syncPhase h
    by_cases hc : phase > env.FTWO_PI * ((2 : Nat) : α)
    · have h1 : phase - env.FTWO_PI * ((2 : Nat) : α) ≤
          ((n + 1 : Nat) : α) * (env.FTWO_PI * ((2 : Nat) : α)) := by
        push_cast at h ⊢
        linarith
      obtain ⟨r, hr⟩ := ih (phase - env.FTWO_PI * ((2 : Nat) : α)) 0 h1
      exact ⟨r, by rw [wrapPhase, if_pos hc]; exact hr⟩
    · exact ⟨(phase, syncPhase), by rw [wrapPhase, if_neg hc]⟩

theorem wrapPhase_converges [Archimedean α] (env : Env α τ A F G) (hpi : 0 < env.FTWO_PI)
    (phase syncPhase : α) :
    ∃ r, Converges (fun f => wrapPhase env f phase syncPhase) r := by
  have hc : 0 < env.FTWO_PI * ((2 : Nat) : α) := by
    have : (0 : α) < ((2 : Nat) : α) := by norm_num
    exact mul_pos hpi this
  obtain ⟨n, hn⟩ := Archimedean.arch phase hc
  have h1 : phase ≤ ((n + 1 : Nat) : α) * (env.FTWO_PI * ((2 : Nat) : α)) := by
    rw [nsmul_eq_mul] at hn
    rw [Nat.cast_succ, add_mul, one_mul]
    linarith
  obtain ⟨r, hr⟩ := wrapPhase_bounded env n phase syncPhase h1
  exact ⟨r, wrapPhase_converges_of_some env n phase syncPhase r hr⟩

theorem advanceSlot_converges [Archimedean α] (env : Env α τ A F G) (hpi : 0 < env.FTWO_PI)
    (p : OscillatorVoiceParams α τ A) (si : α) (pos : Nat) (d : OscData α τ) :
    ∃ r, Converges (fun f => advanceSlot env f p si pos d) r := by
  obtain ⟨⟨ph, sy⟩, f0, hr⟩ := wrapPhase_converges env hpi
    (d.mPhase + env.GetPhaseInc (env.PitchToFreq (env.GetPitch pos) * p.mMult *
      ((p.mDetune - 1) * d.mDetuneFactor + 1))) d.mSyncPhase
  refine ⟨{ d with mOsc := { d.mOsc with mPulseWidth := p.mPulseWidth, mShuffle := p.mShuffle },
                   mPhase := ph, mSyncPhase := sy + si }, f0, fun f hf => ?_⟩
  have h := hr f hf
  simp only at h
  simp only [advanceSlot, h]

theorem slotStep_converges [Archimedean α] (env : Env α τ A F G) (hpi : 0 < env.FTWO_PI)
    (p : OscillatorVoiceParams α τ A) (mono : Bool) (si av : α) (pos u : Nat)
    (acc : UnisonAcc α τ) :
    ∃ r, Converges (fun f => slotStep env f p mono si av pos u acc) r := by
  obtain ⟨d, f0, hr⟩ := advanceSlot_converges env hpi p si pos (acc.1 u)
  refine ⟨(Function.update acc.1 u d,
      mixSlot env p mono u d (slotSample env p av u d) acc.2), f0, fun f hf => ?_⟩
  have h := hr f hf
  simp only at h
  simp only [slotStep, h]

theorem unisonLoop_converges [Archimedean α] (env : Env α τ A F G) (hpi : 0 < env.FTWO_PI)
    (p : OscillatorVoiceParams α τ A) (mono : Bool) (si av : α) (pos u : Nat)
    (acc : UnisonAcc α τ) :
    ∃ r, Converges (fun f => unisonLoop env f p mono si av pos u acc) r := by
  obtain ⟨r, f0, hr⟩ := stepRange_converges
    (fun f => slotStep env f p mono si av pos)
    (fun i s => slotStep_converges env hpi p mono si av pos i s)
    (unisonCount env p - u) u acc
  refine ⟨r, f0, fun f hf => ?_⟩
  show unisonLoop env f p mono si av pos u acc = some r
  rw [unisonLoop_eq_stepRange env f p mono si av pos _ u acc rfl]
  exact hr f hf

theorem renderSample_converges [Archimedean α] (env : Env α τ A F G) (hpi : 0 < env.FTWO_PI)
    (mono : Bool) (si : α) (pos : Nat) (s : RenderState α τ A F) :
    ∃ r, Converges (fun f => renderSample env f mono si pos s) r := by
  obtain ⟨⟨osc, sums⟩, f0, hr⟩ := unisonLoop_converges env hpi
    (computeSliders env pos s.params)
    mono si (env.adsrValue s.voice.mAdsr s.time) pos 0 (s.voice.mOscData, (0, 0))
  let fs := filterStage env (computeSliders env pos s.params) mono s.time
    { s.voice with mOscData := osc } sums
  refine ⟨(computeSliders env pos s.params,
    { s.voice with mOscData := osc, mFilterLeft := fs.1, mFilterRight := fs.2.1 }, fs.2.2),
    f0, fun f hf => ?_⟩
  have h := hr f hf
  simp only at h
  simp only [renderSample, h]

theorem sampleStep_converges [Archimedean α] (env : Env α τ A F G) (hpi : 0 < env.FTWO_PI)
    (mono : Bool) (si : α) (pos : Nat) (s : RenderState α τ A F) :
    ∃ r, Converges (fun f => sampleStep env f mono si pos s) r := by
  obtain ⟨⟨p, v, sums⟩, f0, hr⟩ := renderSample_converges env hpi mono si pos s
  refine ⟨{ time := s.time + env.gInvSampleRateMs, out := writeOut mono pos sums s.out,
            params := p, voice := v }, f0, fun f hf => ?_⟩
  have h := hr f hf
  simp only at h
  simp only [sampleStep, h]

theorem posLoop_converges [Archimedean α] (env : Env α τ A F G) (hpi : 0 < env.FTWO_PI)
    (mono : Bool) (si : α) (bufferSize pos : Nat) (s : RenderState α τ A F) :
    ∃ r, Converges (fun f => posLoop env f mono si bufferSize pos s) r := by
  obtain ⟨r, f0, hr⟩ := stepRange_converges
    (fun f => sampleStep env f mono si)
    (fun i t => sampleStep_converges env hpi mono si i t)
    (bufferSize - pos) pos s
  refine ⟨r, f0, fun f hf => ?_⟩
  show posLoop env f mono si bufferSize pos s = some r
  rw [posLoop_eq_stepRange env f mono si bufferSize _ pos s rfl]
  exact hr f hf

/-- With exact arithmetic and `FTWO_PI > 0` every call of `Process` returns: from some
fuel on the result is the same `some r`, and the returned flag is `!IsDone(time)`. -/
theorem Process_converges [Archimedean α] (env : Env α τ A F G) (hpi : 0 < env.FTWO_PI)
    (time : α) (out : ChannelBuffer α) (p : OscillatorVoiceParams α τ A)
    (v : Voice α τ A F) :
    ∃ r, Converges (fun f => Process env f time out p v) r ∧
      r.1 = !IsDone env v time := by
  by_cases hd : IsDone env v time = true
  · refine ⟨(false, ⟨time, out, p, v⟩), ⟨0, fun f _ => ?_⟩, by simp [hd]⟩
    simp only [Process, hd, if_true]
  · obtain ⟨r, f0, hr⟩ := posLoop_converges env hpi (decide (out.mActiveChannels = 1))
      (env.GetPhaseInc p.mSyncFreq) out.mBufferSize 0
      ⟨time, out, p, { v with mOscData := setTypeLoop env p 0 v.mOscData }⟩
    refine ⟨(true, r), ⟨f0, fun f hf => ?_⟩, by simp [hd]⟩
    have h := hr f hf
    simp only at h
    simp only [Process, hd, h]
    rfl

theorem wrapPhase_spec (env : Env α τ A F G) :
    ∀ (fuel : Nat) (phase syncPhase : α) (r : α × α),
      wrapPhase env fuel phase syncPhase = some r →
      r.1 ≤ env.FTWO_PI * 2 ∧
      ((phase > env.FTWO_PI * 2 → r.2 = 0 ∧ 0 < r.1 ∧
          ∃ k : Nat, 1 ≤ k ∧ r.1 = phase - k * (env.FTWO_PI * 2)) ∧
       (¬ phase > env.FTWO_PI * 2 → r = (phase, syncPhase))) := by
  intro fuel
  induction fuel with
  | zero =>
    intro phase syncPhase r h
    simp only [wrapPhase, Nat.cast_ofNat] at h
    split at h
    · cases h
    · rename_i hc
      simp only [Option.some.injEq] at h
      subst h
      exact ⟨not_lt.mp hc, fun h1 => absurd h1 hc, fun _ => rfl⟩
  | succ n ih =>
    intro phase syncPhase r h
    rw [wrapPhase] at h
    simp only [Nat.cast_ofNat] at h
    split at h
    · rename_i hc
      obtain ⟨h1, h2, h3⟩ := ih _ _ _ h
      refine ⟨h1, fun _ => ?_, fun h4 => absurd hc h4⟩
      by_cases hc2 : phase - env.FTWO_PI * 2 > env.FTWO_PI * 2
      · obtain ⟨e1, e2, k, hk, e3⟩ := h2 hc2
        refine ⟨e1, e2, k + 1, by omega, ?_⟩
        rw [e3]; push_cast; ring
      · have e := h3 hc2
        subst e
        refine ⟨rfl, ?_, 1, le_refl 1, by simp⟩
        simp only
        linarith [hc]
    · rename_i hc
      simp only [Option.some.injEq] at h
      subst h
      exact ⟨not_lt.mp hc, fun h1 => absurd h1 hc, fun _ => rfl⟩

end Field

section Structural

variable {α τ A F G : Type}
variable [Add α] [Sub α] [Mul α] [Neg α] [Zero α] [One α] [NatCast α] [OfScientific α]
variable [LT α] [∀ a b : α, Decidable (a < b)] [BEq α]

theorem unisonLoop_sums_congr (env : Env α τ A F G) (fuel : Nat)
    (p : OscillatorVoiceParams α τ A) (mono : Bool) (si av : α) (pos : Nat)
    (acc acc2 : UnisonAcc α τ)
    (hslots : ∀ j, j < unisonCount env p → acc.1 j = acc2.1 j) (hsums : acc.2 = acc2.2) :
    Option.map Prod.snd (unisonLoop env fuel p mono si av pos 0 acc) =
      Option.map Prod.snd (unisonLoop env fuel p mono si av pos 0 acc2) := by
  rw [unisonLoop_eq_stepRange env fuel p mono si av pos (unisonCount env p) 0 acc rfl,
    unisonLoop_eq_stepRange env fuel p mono si av pos (unisonCount env p) 0 acc2 rfl]
  have key := stepRange_rel (slotStep env fuel p mono si av pos)
    (fun a b => (∀ j, j < unisonCount env p → a.1 j = b.1 j) ∧ a.2 = b.2)
    (unisonCount env p) 0 acc acc2 ?_ ⟨hslots, hsums⟩
  · rcases key with ⟨e1, e2⟩ | ⟨s1, t1, e1, e2, _, h2⟩
    · rw [e1, e2]
    · rw [e1, e2]; simp only [Option.map_some', h2]
  · intro i a b _ hi hR
    obtain ⟨h1, h2⟩ := hR
    have hi2 : i < unisonCount env p := by omega
    simp only [slotStep, h1 i hi2, h2]
    cases hd : advanceSlot env fuel p si pos (b.1 i) with
    | none => exact Or.inl ⟨rfl, rfl⟩
    | some d =>
      refine Or.inr ⟨_, _, rfl, rfl, ?_, rfl⟩
      intro j hj
      by_cases hji : j = i
      · subst hji; simp only [Function.update_same]
      · simp only [Function.update_noteq hji]; exact h1 j hj

theorem stepRange_succ_right {S : Type} (body : Nat → S → Option S) :
    ∀ (n u : Nat) (s : S),
      stepRange body (n + 1) u s =
        match stepRange body n u s with
        | none => none
        | some t => body (u + n) t := by
  intro n
  induction n with
  | zero =>
    intro u s
    simp only [stepRange, Nat.add_zero]
    cases body u s <;> rfl
  | succ n ih =>
    intro u s
    rw [stepRange]
    cases hb : body u s with
    | none => simp only [stepRange, hb]
    | some t =>
      simp only
      rw [ih (u + 1) t]
      have e : u + 1 + n = u + (n + 1) := by omega
      rw [e]
      conv_rhs => rw [stepRange]
      simp only [hb]

theorem writeOut_apply (mono : Bool) (pos : Nat) (sums : α × α) (out : ChannelBuffer α)
    (c n : Nat) :
    (writeOut mono pos sums out).mBuffers c n =
      if c = 0 ∧ n = pos then out.mBuffers 0 pos + sums.1
      else if mono = false ∧ c = 1 ∧ n = pos then out.mBuffers 1 pos + sums.2
      else out.mBuffers c n := by
  cases mono with
  | true =>
    simp only [writeOut, if_true, Bool.true_eq_false, false_and, if_false]
    by_cases hc : c = 0
    · subst hc
      by_cases hn : n = pos
      · subst hn; simp
      · simp [Function.update_noteq hn, hn]
    · simp [Function.update_noteq hc, hc]
  | false =>
    simp only [writeOut, Bool.false_eq_true, if_false, true_and]
    by_cases hc : c = 1
    · subst hc
      by_cases hn : n = pos
      · subst hn; simp
      · simp [Function.update_noteq hn, hn]
    · by_cases hc0 : c = 0
      · subst hc0
        by_cases hn : n = pos
        · subst hn; simp
        · simp [Function.update_noteq hn, hn]
      · simp [Function.update_noteq hc, Function.update_noteq hc0, hc, hc0]

/-- The output buffer after the sample loop: position `n` of channel 0 (and of channel 1
when not mono) holds its previous content plus the sums `renderSample` produced at `n`;
everything else is as before. -/
theorem posLoop_out (env : Env α τ A F G) (fuel : Nat) (mono : Bool) (si : α)
    (bufferSize : Nat) (s0 s1 : RenderState α τ A F)
    (h : posLoop env fuel mono si bufferSize 0 s0 = some s1) :
    (∀ c n, (bufferSize ≤ n ∨ (mono = true ∧ c ≠ 0) ∨ (c ≠ 0 ∧ c ≠ 1)) →
      s1.out.mBuffers c n = s0.out.mBuffers c n) ∧
    (∀ n, n < bufferSize → ∃ sn q,
      stepRange (sampleStep env fuel mono si) n 0 s0 = some sn ∧
      renderSample env fuel mono si n sn = some q ∧
      s1.out.mBuffers 0 n = s0.out.mBuffers 0 n + q.2.2.1 ∧
      (mono = false → s1.out.mBuffers 1 n = s0.out.mBuffers 1 n + q.2.2.2)) := by
  rw [posLoop_eq_stepRange env fuel mono si bufferSize bufferSize 0 s0 rfl] at h
  have key := stepRange_invariant (sampleStep env fuel mono si)
    (fun i s => stepRange (sampleStep env fuel mono si) i 0 s0 = some s ∧
      (∀ c n, (i ≤ n ∨ (mono = true ∧ c ≠ 0) ∨ (c ≠ 0 ∧ c ≠ 1)) →
        s.out.mBuffers c n = s0.out.mBuffers c n) ∧
      (∀ n, n < i → ∃ sn q,
        stepRange (sampleStep env fuel mono si) n 0 s0 = some sn ∧
        renderSample env fuel mono si n sn = some q ∧
        s.out.mBuffers 0 n = s0.out.mBuffers 0 n + q.2.2.1 ∧
        (mono = false → s.out.mBuffers 1 n = s0.out.mBuffers 1 n + q.2.2.2)))
    bufferSize 0 s0 s1 ?_ ?_ h
  · simp only [Nat.zero_add] at key
    exact ⟨key.2.1, key.2.2⟩
  · intro i t t1 _ _ hI ht
    obtain ⟨hpre, hfr, hsum⟩ := hI
    obtain ⟨q, hq, rfl⟩ := sampleStep_spec env fuel mono si i t t1 ht
    refine ⟨?_, ?_, ?_⟩
    · rw [stepRange_succ_right, hpre]
      simp only [Nat.zero_add]
      exact ht
    · intro c n hcn
      simp only [writeOut_apply]
      have h1 : ¬ (c = 0 ∧ n = i) := by
        rintro ⟨rfl, rfl⟩
        rcases hcn with hh | hh | hh
        · omega
        · exact hh.2 rfl
        · exact hh.1 rfl
      have h2 : ¬ (mono = false ∧ c = 1 ∧ n = i) := by
        rintro ⟨hm, rfl, rfl⟩
        rcases hcn with hh | hh | hh
        · omega
        · rw [hm] at hh; exact absurd hh.1 (by simp)
        · exact hh.2 rfl
      rw [if_neg h1, if_neg h2]
      apply hfr
      rcases hcn with hh | hh | hh
      · exact Or.inl (by omega)
      · exact Or.inr (Or.inl hh)
      · exact Or.inr (Or.inr hh)
    · intro n hn
      by_cases hni : n = i
      · subst hni
        refine ⟨t, q, hpre, hq, ?_, ?_⟩
        · simp only [writeOut_apply, and_self, if_true]
          rw [hfr 0 n (Or.inl (Nat.le_refl n))]
        · intro hm
          simp only [writeOut_apply, hm, and_self, if_true]
          simp only [and_true, Nat.succ_ne_self, if_false, one_ne_zero]
          rw [hfr 1 n (Or.inl (Nat.le_refl n))]
      · obtain ⟨sn, q1, e1, e2, e3, e4⟩ := hsum n (by omega)
        refine ⟨sn, q1, e1, e2, ?_, ?_⟩
        · simp only [writeOut_apply, hni, and_false, if_false]
          exact e3
        · intro hm
          simp only [writeOut_apply, hni, and_false, if_false]
          exact e4 hm
  · exact ⟨rfl, fun _ _ _ => rfl, fun n hn => absurd hn (Nat.not_lt_zero n)⟩

theorem clearPhaseLoop_eq (env : Env α τ A F G) :
    ∀ (n u : Nat) (osc : Nat → OscData α τ), env.kMaxUnison - u = n →
      clearPhaseLoop env u osc = fun i =>
        if u ≤ i ∧ i < env.kMaxUnison then { osc i with mPhase := 0, mSyncPhase := 0 }
        else osc i := by
  intro n
  induction n with
  | zero =>
    intro u osc h
    have hc : ¬ u < env.kMaxUnison := by omega
    rw [clearPhaseLoop, if_neg hc]
    funext i
    have : ¬ (u ≤ i ∧ i < env.kMaxUnison) := by omega
    rw [if_neg this]
  | succ n ih =>
    intro u osc h
    have hc : u < env.kMaxUnison := by omega
    rw [clearPhaseLoop, if_pos hc, ih (u + 1) _ (by omega)]
    funext i
    by_cases hi : i = u
    · subst hi
      have h1 : ¬ (i + 1 ≤ i ∧ i < env.kMaxUnison) := by omega
      have h2 : (i ≤ i ∧ i < env.kMaxUnison) := by omega
      rw [if_neg h1, if_pos h2, Function.update_same]
    · rw [Function.update_noteq hi]
      by_cases h3 : u + 1 ≤ i ∧ i < env.kMaxUnison
      · have h4 : u ≤ i ∧ i < env.kMaxUnison := by omega
        rw [if_pos h3, if_pos h4]
      · have h4 : ¬ (u ≤ i ∧ i < env.kMaxUnison) := by omega
        rw [if_neg h3, if_neg h4]

theorem randomDetuneLoop_spec (env : Env α τ A F G) :
    ∀ (n u : Nat) (acc : (Nat → OscData α τ) × G), env.kMaxUnison - u = n →
      (∀ i, ((randomDetuneLoop env u acc).1 i).mPhase = (acc.1 i).mPhase ∧
            ((randomDetuneLoop env u acc).1 i).mSyncPhase = (acc.1 i).mSyncPhase ∧
            ((randomDetuneLoop env u acc).1 i).mOsc = (acc.1 i).mOsc) ∧
      (∀ i, (i < u ∨ env.kMaxUnison ≤ i) → (randomDetuneLoop env u acc).1 i = acc.1 i) ∧
      (∀ i, u ≤ i → i < env.kMaxUnison →
        ∃ g1, ((randomDetuneLoop env u acc).1 i).mDetuneFactor =
          (env.ofRandom (-1) 1 g1).1) := by
  intro n
  induction n with
  | zero =>
    intro u acc h
    have hc : ¬ u < env.kMaxUnison := by omega
    rw [randomDetuneLoop, if_neg hc]
    exact ⟨fun _ => ⟨rfl, rfl, rfl⟩, fun _ _ => rfl, fun i h1 h2 => absurd h2 (by omega)⟩
  | succ n ih =>
    intro u acc h
    have hc : u < env.kMaxUnison := by omega
    rw [randomDetuneLoop, if_pos hc]
    obtain ⟨h1, h2, h3⟩ := ih (u + 1)
      (Function.update acc.1 u
        { acc.1 u with mDetuneFactor := (env.ofRandom (-1) 1 acc.2).1 },
       (env.ofRandom (-1) 1 acc.2).2) (by omega)
    refine ⟨?_, ?_, ?_⟩
    · intro i
      obtain ⟨a1, a2, a3⟩ := h1 i
      simp only at a1 a2 a3 ⊢
      rw [a1, a2, a3]
      by_cases hi : i = u
      · subst hi; simp only [Function.update_same, and_self]
      · simp only [Function.update_noteq hi, and_self]
    · intro i hi
      have e := h2 i (by omega)
      simp only at e ⊢
      rw [e]
      have hne : i ≠ u := by omega
      simp only [Function.update_noteq hne]
    · intro i hi1 hi2
      by_cases hi : i = u
      · subst hi
        have e := h2 i (Or.inl (Nat.lt_succ_self i))
        simp only at e ⊢
        rw [e]
        simp only [Function.update_same]
        exact ⟨acc.2, rfl⟩
      · exact h3 i (by omega) hi2

theorem ClearVoice_slots (env : Env α τ A F G) (g : G) (v : Voice α τ A F) :
    ((ClearVoice env g v).1.mOscData 0).mDetuneFactor = 1 ∧
    ((ClearVoice env g v).1.mOscData 1).mDetuneFactor = 0 ∧
    (∀ u, 2 ≤ u → u < env.kMaxUnison →
      ∃ g1, ((ClearVoice env g v).1.mOscData u).mDetuneFactor =
        (env.ofRandom (-1) 1 g1).1) ∧
    (∀ u, u < env.kMaxUnison →
      ((ClearVoice env g v).1.mOscData u).mPhase = 0 ∧
      ((ClearVoice env g v).1.mOscData u).mSyncPhase = 0) ∧
    (∀ u, env.kMaxUnison ≤ u → 2 ≤ u →
      (ClearVoice env g v).1.mOscData u = v.mOscData u) := by
  simp only [ClearVoice]
  generalize hacc : (Function.update
      (Function.update (clearPhaseLoop env 0 v.mOscData) 0
        { clearPhaseLoop env 0 v.mOscData 0 with mDetuneFactor := 1 }) 1
      { Function.update (clearPhaseLoop env 0 v.mOscData) 0
          { clearPhaseLoop env 0 v.mOscData 0 with mDetuneFactor := 1 } 1 with
        mDetuneFactor := 0 }, g) = acc
  obtain ⟨h1, h2, h3⟩ := randomDetuneLoop_spec env _ 2 acc rfl
  have hclear := clearPhaseLoop_eq env _ 0 v.mOscData rfl
  refine ⟨?_, ?_, h3, ?_, ?_⟩
  · rw [h2 0 (Or.inl (by omega)), ← hacc]
    simp only [Function.update_same, ne_eq, zero_ne_one, not_false_eq_true,
      Function.update_noteq]
  · rw [h2 1 (Or.inl (by omega)), ← hacc]
    simp only [Function.update_same]
  · intro u hu
    obtain ⟨a1, a2, _⟩ := h1 u
    rw [a1, a2, ← hacc, hclear]
    have hin : (0 ≤ u ∧ u < env.kMaxUnison) := ⟨Nat.zero_le u, hu⟩
    by_cases hu1 : u = 1
    · subst hu1
      simp only [Function.update_same]
      by_cases h10 : (1 : Nat) = 0
      · omega
      · simp only [Function.update_noteq h10, if_pos hin, and_self]
    · by_cases hu0 : u = 0
      · subst hu0
        simp only [Function.update_noteq hu1, Function.update_same, if_pos hin, and_self]
      · simp only [Function.update_noteq hu1, Function.update_noteq hu0, if_pos hin,
          and_self]
  · intro u hu hu2
    rw [h2 u (Or.inr hu), ← hacc, hclear]
    have hu1 : u ≠ 1 := by omega
    have hu0 : u ≠ 0 := by omega
    have hin : ¬ (0 ≤ u ∧ u < env.kMaxUnison) := by omega
    simp only [Function.update_noteq hu1, Function.update_noteq hu0, if_neg hin]

theorem runCalls_invariant (env : Env α τ A F G) (fuel : Nat)
    (I : Voice α τ A F × G → Prop) :
    ∀ (calls : List (VoiceCall α τ A)) (s r : Voice α τ A F × G),
      (∀ c, c ∈ calls → ∀ a b, I a → runCall env fuel c a = some b → I b) →
      I s → runCalls env fuel calls s = some r → I r := by
  intro calls
  induction calls with
  | nil =>
    intro s r _ h0 h
    simp only [runCalls, Option.some.injEq] at h
    subst h; exact h0
  | cons c cs ih =>
    intro s r hstep h0 h
    simp only [runCalls] at h
    cases hc : runCall env fuel c s with
    | none => rw [hc] at h; cases h
    | some s1 =>
      rw [hc] at h
      exact ih s1 r (fun c1 hc1 => hstep c1 (List.mem_cons_of_mem c hc1))
        (hstep c (List.mem_cons_self c cs) s s1 h0 hc) h

/-! ### More fuel never changes a result -/

theorem advanceSlot_mono (env : Env α τ A F G) (fuel k : Nat)
    (p : OscillatorVoiceParams α τ A) (si : α) (pos : Nat) (d d1 : OscData α τ)
    (h : advanceSlot env fuel p si pos d = some d1) :
    advanceSlot env (fuel + k) p si pos d = some d1 := by
  obtain ⟨r, hr, rfl⟩ := advanceSlot_spec env fuel p si pos d d1 h
  simp only [advanceSlot, wrapPhase_mono env fuel k _ _ r hr]

theorem slotStep_mono (env : Env α τ A F G) (fuel k : Nat)
    (p : OscillatorVoiceParams α τ A) (mono : Bool) (si av : α) (pos u : Nat)
    (acc acc1 : UnisonAcc α τ)
    (h : slotStep env fuel p mono si av pos u acc = some acc1) :
    slotStep env (fuel + k) p mono si av pos u acc = some acc1 := by
  obtain ⟨d, hd, rfl⟩ := slotStep_spec env fuel p mono si av pos u acc acc1 h
  simp only [slotStep, advanceSlot_mono env fuel k p si pos _ d hd]

theorem stepRange_mono {S : Type} (body body2 : Nat → S → Option S)
    (hb : ∀ i s r, body i s = some r → body2 i s = some r) :
    ∀ (n u : Nat) (s r : S), stepRange body n u s = some r →
      stepRange body2 n u s = some r := by
  intro n
  induction n with
  | zero => intro u s r h; exact h
  | succ n ih =>
    intro u s r h
    simp only [stepRange] at h ⊢
    cases hc : body u s with
    | none => rw [hc] at h; cases h
    | some t =>
      rw [hc] at h
      rw [hb u s t hc]
      exact ih (u + 1) t r h

theorem unisonLoop_mono (env : Env α τ A F G) (fuel k : Nat)
    (p : OscillatorVoiceParams α τ A) (mono : Bool) (si av : α) (pos : Nat)
    (acc acc1 : UnisonAcc α τ)
    (h : unisonLoop env fuel p mono si av pos 0 acc = some acc1) :
    unisonLoop env (fuel + k) p mono si av pos 0 acc = some acc1 := by
  rw [unisonLoop_eq_stepRange env _ p mono si av pos (unisonCount env p) 0 acc rfl] at h ⊢
  exact stepRange_mono _ _
    (fun i s r hr => slotStep_mono env fuel k p mono si av pos i s r hr) _ 0 acc acc1 h

theorem sampleStep_mono (env : Env α τ A F G) (fuel k : Nat) (mono : Bool) (si : α)
    (pos : Nat) (s s1 : RenderState α τ A F)
    (h : sampleStep env fuel mono si pos s = some s1) :
    sampleStep env (fuel + k) mono si pos s = some s1 := by
  obtain ⟨r, hr, rfl⟩ := sampleStep_spec env fuel mono si pos s s1 h
  obtain ⟨acc, hacc, rfl⟩ := renderSample_spec env fuel mono si pos s r hr
  simp only [sampleStep, renderSample, unisonLoop_mono env fuel k _ mono si _ pos _ acc hacc]

theorem posLoop_mono (env : Env α τ A F G) (fuel k : Nat) (mono : Bool) (si : α)
    (bufferSize : Nat) (s s1 : RenderState α τ A F)
    (h : posLoop env fuel mono si bufferSize 0 s = some s1) :
    posLoop env (fuel + k) mono si bufferSize 0 s = some s1 := by
  rw [posLoop_eq_stepRange env _ mono si bufferSize bufferSize 0 s rfl] at h ⊢
  exact stepRange_mono _ _
    (fun i t r hr => sampleStep_mono env fuel k mono si i t r hr) _ 0 s s1 h

theorem Process_mono (env : Env α τ A F G) (fuel k : Nat) (time : α)
    (out : ChannelBuffer α) (p : OscillatorVoiceParams α τ A) (v : Voice α τ A F)
    (r : Bool × RenderState α τ A F) (h : Process env fuel time out p v = some r) :
    Process env (fuel + k) time out p v = some r := by
  unfold Process at h ⊢
  split
  · rename_i hd; rw [if_pos hd] at h; exact h
  · rename_i hd
    rw [if_neg hd] at h
    simp only at h ⊢
    cases hp : posLoop env fuel (decide (out.mActiveChannels = 1))
        (env.GetPhaseInc p.mSyncFreq) out.mBufferSize 0
        { time := time, out := out, params := p,
          voice := { v with mOscData := setTypeLoop env p 0 v.mOscData } } with
    | none => rw [hp] at h; cases h
    | some s1 =>
      rw [hp] at h
      rw [posLoop_mono env fuel k _ _ _ _ s1 hp]
      exact h

theorem runCall_mono (env : Env α τ A F G) (fuel k : Nat) (c : VoiceCall α τ A)
    (s r : Voice α τ A F × G) (h : runCall env fuel c s = some r) :
    runCall env (fuel + k) c s = some r := by
  cases c with
  | start time target p => exact h
  | stop time => exact h
  | clearVoice => exact h
  | process time out p =>
    simp only [runCall] at h ⊢
    cases hp : Process env fuel time out p s.1 with
    | none => rw [hp] at h; cases h
    | some r1 =>
      rw [hp] at h
      rw [Process_mono env fuel k time out p s.1 r1 hp]
      exact h

theorem runCalls_mono (env : Env α τ A F G) (fuel k : Nat) :
    ∀ (calls : List (VoiceCall α τ A)) (s r : Voice α τ A F × G),
      runCalls env fuel calls s = some r → runCalls env (fuel + k) calls s = some r := by
  intro calls
  induction calls with
  | nil => intro s r h; exact h
  | cons c cs ih =>
    intro s r h
    simp only [runCalls] at h ⊢
    cases hc : runCall env fuel c s with
    | none => rw [hc] at h; cases h
    | some s1 =>
      rw [hc] at h
      rw [runCall_mono env fuel k c s s1 hc]
      exact ih s1 r h

theorem runCalls_converges_of_some (env : Env α τ A F G) (fuel : Nat)
    (calls : List (VoiceCall α τ A)) (s r : Voice α τ A F × G)
    (h : runCalls env fuel calls s = some r) :
    Converges (fun f => runCalls env f calls s) r := by
  refine ⟨fuel, fun f hf => ?_⟩
  obtain ⟨k, rfl⟩ := Nat.exists_eq_add_of_le hf
  exact runCalls_mono env fuel k calls s r h

theorem Process_converges_of_some (env : Env α τ A F G) (fuel : Nat) (time : α)
    (out : ChannelBuffer α) (p : OscillatorVoiceParams α τ A) (v : Voice α τ A F)
    (r : Bool × RenderState α τ A F) (h : Process env fuel time out p v = some r) :
    Converges (fun f => Process env f time out p v) r := by
  refine ⟨fuel, fun f hf => ?_⟩
  obtain ⟨k, rfl⟩ := Nat.exists_eq_add_of_le hf
  exact Process_mono env fuel k time out p v r h

/-! ### A voice with a single unison slot and no owner -/

theorem sampleStep_single (env : Env α τ A F G) (hown : env.mOwner = none)
    (hk : 0 < env.kMaxUnison) (fuel : Nat) (mono : Bool) (si : α) (pos : Nat)
    (s s1 : RenderState α τ A F) (hun : s.params.mUnison = 1)
    (h : sampleStep env fuel mono si pos s = some s1) :
    s1.params = s.params ∧ s1.time = s.time + env.gInvSampleRateMs ∧
    ∃ d, advanceSlot env fuel s.params si pos (s.voice.mOscData 0) = some d ∧
      s1.voice.mOscData 0 = d ∧
      (s.voice.mUseFilter = false →
        s1.out = writeOut mono pos
          (mixSlot env s.params mono 0 d
            (slotSample env s.params (env.adsrValue s.voice.mAdsr s.time) 0 d) (0, 0))
          s.out) := by
  obtain ⟨r, hr, rfl⟩ := sampleStep_spec env fuel mono si pos s s1 h
  obtain ⟨acc, hacc, rfl⟩ := renderSample_spec env fuel mono si pos s r hr
  have hp : computeSliders env pos s.params = s.params := by
    simp only [computeSliders, hown]
  rw [hp] at hacc
  have hcount : unisonCount env s.params = 1 := by
    unfold unisonCount; rw [hun]; omega
  rw [unisonLoop_eq_stepRange env fuel s.params mono si _ pos 1 0 _ (by rw [hcount])] at hacc
  simp only [stepRange] at hacc
  cases hs : slotStep env fuel s.params mono si (env.adsrValue s.voice.mAdsr s.time) pos 0
      (s.voice.mOscData, (0, 0)) with
  | none => rw [hs] at hacc; cases hacc
  | some acc1 =>
    rw [hs] at hacc
    simp only [Option.some.injEq] at hacc
    subst hacc
    obtain ⟨d, hd, rfl⟩ := slotStep_spec env fuel s.params mono si _ pos 0 _ acc1 hs
    refine ⟨hp, rfl, d, hd, ?_, ?_⟩
    · simp only [Function.update_same]
    · intro hf
      simp only [hp, filterStage, hf, Bool.false_eq_true, if_false]

/-! ### The returned flag, and a single sample of a single slot -/

/-- A voice that is done at entry: `Process` returns `false` for every fuel and hands back
the buffer, the parameters and the voice unchanged.  This holds for every number type. -/
theorem Process_done (env : Env α τ A F G) (fuel : Nat) (time : α) (out : ChannelBuffer α)
    (p : OscillatorVoiceParams α τ A) (v : Voice α τ A F) (hd : IsDone env v time = true) :
    Process env fuel time out p v =
      some (false, { time := time, out := out, params := p, voice := v }) := by
  simp only [Process, hd, if_true]

/-- A voice that is not done at entry: whenever `Process` returns, it returns `true`.  This
holds for every number type; whether the call returns is a separate matter. -/
theorem Process_flag_true (env : Env α τ A F G) (fuel : Nat) (time : α)
    (out : ChannelBuffer α) (p : OscillatorVoiceParams α τ A) (v : Voice α τ A F)
    (hd : IsDone env v time = false) (r : Bool × RenderState α τ A F)
    (h : Process env fuel time out p v = some r) : r.1 = true := by
  unfold Process at h
  rw [hd] at h
  simp only [Bool.false_eq_true, if_false] at h
  split at h
  · cases h
  · simp only [Option.some.injEq] at h
    subst h
    rfl

theorem setTypeLoop_fields (env : Env α τ A F G) (p : OscillatorVoiceParams α τ A)
    (osc : Nat → OscData α τ) (j : Nat) :
    (setTypeLoop env p 0 osc j).mPhase = (osc j).mPhase ∧
    (setTypeLoop env p 0 osc j).mSyncPhase = (osc j).mSyncPhase ∧
    (setTypeLoop env p 0 osc j).mDetuneFactor = (osc j).mDetuneFactor := by
  rw [setTypeLoop_eq env p _ 0 osc rfl]
  simp only
  split <;> exact ⟨rfl, rfl, rfl⟩

/-- One sample of a single-slot voice without owner: if the phase wrap of slot 0 finishes
with `w`, then `Process` returns `true`, and slot 0 ends with phase `w.1` and sync phase
`w.2` plus the sync increment. -/
theorem Process_single_one (env : Env α τ A F G) (hown : env.mOwner = none)
    (hk : 0 < env.kMaxUnison) (p : OscillatorVoiceParams α τ A) (hun : p.mUnison = 1)
    (time : α) (out : ChannelBuffer α) (v : Voice α τ A F) (hsize : out.mBufferSize = 1)
    (hd : IsDone env v time = false) (fuel : Nat) (w : α × α)
    (hw : wrapPhase env fuel
      ((v.mOscData 0).mPhase + env.GetPhaseInc (env.PitchToFreq (env.GetPitch 0) * p.mMult *
        ((p.mDetune - 1) * (v.mOscData 0).mDetuneFactor + 1))) (v.mOscData 0).mSyncPhase =
      some w) :
    ∃ r, Process env fuel time out p v = some r ∧ r.1 = true ∧
      (r.2.voice.mOscData 0).mPhase = w.1 ∧
      (r.2.voice.mOscData 0).mSyncPhase = w.2 + env.GetPhaseInc p.mSyncFreq := by
  obtain ⟨a, b⟩ := w
  obtain ⟨f1, f2, f3⟩ := setTypeLoop_fields env p v.mOscData 0
  have hcount : unisonCount env p = 1 := by
    unfold unisonCount; rw [hun]; omega
  have hcs : ∀ pos, computeSliders env pos p = p := by
    intro pos; simp only [computeSliders, hown]
  cases hP : Process env fuel time out p v with
  | none =>
    exfalso
    unfold Process at hP
    rw [hd] at hP
    simp only [Bool.false_eq_true, if_false] at hP
    rw [hsize, posLoop_eq_stepRange env fuel _ _ 1 1 0 _ rfl] at hP
    simp only [stepRange, sampleStep, renderSample, hcs] at hP
    rw [unisonLoop_eq_stepRange env fuel p _ _ _ 0 1 0 _ (by rw [hcount])] at hP
    simp only [stepRange, slotStep, advanceSlot, f1, f2, f3, hw] at hP
    cases hP
  | some r =>
    refine ⟨r, rfl, Process_flag_true env fuel time out p v hd r hP, ?_⟩
    unfold Process at hP
    rw [hd] at hP
    simp only [Bool.false_eq_true, if_false] at hP
    rw [hsize, posLoop_eq_stepRange env fuel _ _ 1 1 0 _ rfl] at hP
    simp only [stepRange, sampleStep, renderSample, hcs] at hP
    rw [unisonLoop_eq_stepRange env fuel p _ _ _ 0 1 0 _ (by rw [hcount])] at hP
    simp only [stepRange, slotStep, advanceSlot, f1, f2, f3, hw, Option.some.injEq] at hP
    subst hP
    simp only [Function.update_same, and_self]

/-! ### A phase wrap that does not finish stops the whole call -/

theorem Process_none_of_advance (env : Env α τ A F G) (fuel : Nat) (time : α)
    (out : ChannelBuffer α) (p : OscillatorVoiceParams α τ A) (v : Voice α τ A F)
    (hd : IsDone env v time = false) (hsize : 0 < out.mBufferSize)
    (hcount : 0 < unisonCount env (computeSliders env 0 p))
    (hadv : advanceSlot env fuel (computeSliders env 0 p) (env.GetPhaseInc p.mSyncFreq) 0
      (setTypeLoop env p 0 v.mOscData 0) = none) :
    Process env fuel time out p v = none := by
  have hu : ∀ (mono : Bool) (av : α) (acc : UnisonAcc α τ),
      acc.1 = setTypeLoop env p 0 v.mOscData →
      unisonLoop env fuel (computeSliders env 0 p) mono (env.GetPhaseInc p.mSyncFreq) av 0 0
        acc = none := by
    intro mono av acc hacc
    have hc : ((0 : Nat) : Int) < (computeSliders env 0 p).mUnison ∧ 0 < env.kMaxUnison := by
      rw [unison_cond_iff]; exact hcount
    rw [unisonLoop, if_pos hc]
    simp only [slotStep, hacc, hadv]
  have hs : ∀ (mono : Bool) (t : RenderState α τ A F),
      t.params = p → t.voice.mOscData = setTypeLoop env p 0 v.mOscData →
      sampleStep env fuel mono (env.GetPhaseInc p.mSyncFreq) 0 t = none := by
    intro mono t h1 h2
    simp only [sampleStep, renderSample, h1]
    rw [hu mono _ _ h2]
  unfold Process
  rw [hd]
  simp only [Bool.false_eq_true, if_false]
  rw [posLoop, if_pos hsize, hs _ _ rfl rfl]

end Structural

section FieldLemmas

variable {α τ A F G : Type} [LinearOrderedField α]

theorem Process_running (env : Env α τ A F G) (fuel : Nat) (time : α)
    (out : ChannelBuffer α) (p : OscillatorVoiceParams α τ A) (v : Voice α τ A F)
    (hd : IsDone env v time = false) (r : Bool × RenderState α τ A F)
    (h : Process env fuel time out p v = some r) :
    r.1 = true ∧
    posLoop env fuel (decide (out.mActiveChannels = 1)) (env.GetPhaseInc p.mSyncFreq)
      out.mBufferSize 0
      { time := time, out := out, params := p,
        voice := { v with mOscData := setTypeLoop env p 0 v.mOscData } } = some r.2 := by
  unfold Process at h
  rw [hd] at h
  simp only [Bool.false_eq_true, if_false] at h
  split at h
  · cases h
  · rename_i s1 hs
    simp only [Option.some.injEq] at h
    subst h
    exact ⟨rfl, hs⟩

/-- In exact arithmetic with `FTWO_PI > 0` a voice that is not done at entry makes `Process`
return `true` for every sufficient fuel.  Exact arithmetic has no `+∞` and no rounding, so
every phase-wrap loop finishes. -/
theorem Process_not_done_returns [Archimedean α] (env : Env α τ A F G)
    (hpi : 0 < env.FTWO_PI) (time : α) (out : ChannelBuffer α)
    (p : OscillatorVoiceParams α τ A) (v : Voice α τ A F)
    (hd : IsDone env v time = false) :
    ∃ f0, ∀ fuel, f0 ≤ fuel → ∃ s, Process env fuel time out p v = some (true, s) := by
  obtain ⟨r, ⟨f0, hr⟩, hb⟩ := Process_converges env hpi time out p v
  refine ⟨f0, fun fuel hf => ⟨r.2, ?_⟩⟩
  have e := hr fuel hf
  simp only [hd, Bool.not_false] at hb
  simp only at e
  rw [e, ← hb]

theorem runCall_converges [Archimedean α] (env : Env α τ A F G) (hpi : 0 < env.FTWO_PI)
    (c : VoiceCall α τ A) (s : Voice α τ A F × G) :
    ∃ r, Converges (fun f => runCall env f c s) r := by
  cases c with
  | start time target p => exact ⟨_, 0, fun _ _ => rfl⟩
  | stop time => exact ⟨_, 0, fun _ _ => rfl⟩
  | clearVoice => exact ⟨_, 0, fun _ _ => rfl⟩
  | process time out p =>
    obtain ⟨r, ⟨f0, hr⟩, _⟩ := Process_converges env hpi time out p s.1
    refine ⟨(r.2.voice, s.2), f0, fun f hf => ?_⟩
    have e := hr f hf
    simp only at e
    simp only [runCall, e]

theorem runCalls_converges [Archimedean α] (env : Env α τ A F G) (hpi : 0 < env.FTWO_PI) :
    ∀ (calls : List (VoiceCall α τ A)) (s : Voice α τ A F × G),
      ∃ r, Converges (fun f => runCalls env f calls s) r := by
  intro calls
  induction calls with
  | nil => intro s; exact ⟨s, 0, fun _ _ => rfl⟩
  | cons c cs ih =>
    intro s
    obtain ⟨s1, a, ha⟩ := runCall_converges env hpi c s
    obtain ⟨r, b, hb⟩ := ih s1
    refine ⟨r, max a b, fun f hf => ?_⟩
    have e1 := ha f (le_trans (le_max_left a b) hf)
    have e2 := hb f (le_trans (le_max_right a b) hf)
    simp only at e1 e2
    simp only [runCalls, e1, e2]

theorem ClearVoice_pinned (env : Env α τ A F G)
    (hrand : ∀ g, -1 ≤ (env.ofRandom (-1) 1 g).1 ∧ (env.ofRandom (-1) 1 g).1 ≤ 1)
    (g : G) (v : Voice α τ A F) : DetunePinned env (ClearVoice env g v).1 := by
  obtain ⟨h0, h1, h2, _, _⟩ := ClearVoice_slots env g v
  refine ⟨h0, h1, fun u hu1 hu2 => ?_⟩
  obtain ⟨g1, e⟩ := h2 u hu1 hu2
  rw [e]
  exact hrand g1

theorem runCall_pinned (env : Env α τ A F G)
    (hrand : ∀ g, -1 ≤ (env.ofRandom (-1) 1 g).1 ∧ (env.ofRandom (-1) 1 g).1 ≤ 1)
    (fuel : Nat) (c : VoiceCall α τ A) (a b : Voice α τ A F × G)
    (hI : DetunePinned env a.1) (h : runCall env fuel c a = some b) :
    DetunePinned env b.1 := by
  cases c with
  | start time target p =>
    simp only [runCall, Option.some.injEq] at h
    subst h
    have e : (Start env time target p a.1).mOscData = a.1.mOscData := by
      simp only [Start]; split <;> rfl
    simp only [DetunePinned, e]
    exact hI
  | stop time =>
    simp only [runCall, Option.some.injEq] at h
    subst h
    exact hI
  | clearVoice =>
    simp only [runCall, Option.some.injEq] at h
    subst h
    exact ClearVoice_pinned env hrand a.2 a.1
  | process time out p =>
    simp only [runCall] at h
    split at h
    · cases h
    · rename_i r hr
      simp only [Option.some.injEq] at h
      subst h
      have hf := (Process_frame env fuel time out p a.1 r hr).2.2.2.2.1
      simp only at hf
      simp only [DetunePinned, hf]
      exact hI

/-! ### Phase bounds -/

theorem advanceSlot_bounds (env : Env α τ A F G) (fuel : Nat)
    (p : OscillatorVoiceParams α τ A) (si : α) (pos : Nat) (d d1 : OscData α τ)
    (h : advanceSlot env fuel p si pos d = some d1)
    (hph : 0 ≤ d.mPhase) (hsy : 0 ≤ d.mSyncPhase) (hsi : 0 ≤ si)
    (hinc : 0 ≤ env.GetPhaseInc (env.PitchToFreq (env.GetPitch pos) * p.mMult *
      ((p.mDetune - 1) * d.mDetuneFactor + 1))) :
    0 ≤ d1.mPhase ∧ d1.mPhase ≤ env.FTWO_PI * 2 ∧ 0 ≤ d1.mSyncPhase ∧
    d1.mDetuneFactor = d.mDetuneFactor := by
  obtain ⟨r, hr, rfl⟩ := advanceSlot_spec env fuel p si pos d d1 h
  obtain ⟨hle, hwrap, hno⟩ := wrapPhase_spec env fuel _ _ r hr
  simp only
  by_cases hc : d.mPhase + env.GetPhaseInc (env.PitchToFreq (env.GetPitch pos) * p.mMult *
      ((p.mDetune - 1) * d.mDetuneFactor + 1)) > env.FTWO_PI * 2
  · obtain ⟨e1, e2, _⟩ := hwrap hc
    refine ⟨le_of_lt e2, hle, ?_, trivial⟩
    rw [e1]; linarith
  · have e := hno hc
    subst e
    simp only
    exact ⟨by linarith, hle, by linarith, trivial⟩

theorem detune_mult_nonneg (D d : α) (h0 : 0 ≤ D) (h2 : D ≤ 2) (hlo : -1 ≤ d) (hhi : d ≤ 1) :
    0 ≤ (D - 1) * d + 1 := by
  by_cases hD : 1 ≤ D
  · nlinarith
  · push_neg at hD
    nlinarith

theorem sampleStep_bounded (env : Env α τ A F G)
    (hpitch : ∀ x, 0 ≤ env.PitchToFreq x)
    (hinc : ∀ x, 0 ≤ x → 0 ≤ env.GetPhaseInc x)
    (hown : ∀ f, env.mOwner = some f → ∀ pos q, NonNegParams q → NonNegParams (f pos q))
    (fuel : Nat) (mono : Bool) (si : α) (hsi : 0 ≤ si) (pos : Nat)
    (s s1 : RenderState α τ A F)
    (hI : NonNegParams s.params ∧ SlotsBounded env s.voice)
    (h : sampleStep env fuel mono si pos s = some s1) :
    NonNegParams s1.params ∧ SlotsBounded env s1.voice := by
  obtain ⟨r, hr, rfl⟩ := sampleStep_spec env fuel mono si pos s s1 h
  obtain ⟨acc, hacc, rfl⟩ := renderSample_spec env fuel mono si pos s r hr
  obtain ⟨hP, hS⟩ := hI
  have hP1 : NonNegParams (computeSliders env pos s.params) := by
    unfold computeSliders
    cases ho : env.mOwner with
    | none => exact hP
    | some f => exact hown f ho pos s.params hP
  refine ⟨hP1, ?_⟩
  obtain ⟨h1, h2⟩ := unisonLoop_slots env fuel _ mono si _ pos _ acc hacc
  intro u hu
  simp only
  by_cases hc : u < unisonCount env (computeSliders env pos s.params)
  · have ha := h2 u hc
    simp only at ha
    obtain ⟨b1, b2, b3, b4, b5⟩ := hS u hu
    obtain ⟨c1, c2, c3, c4⟩ := advanceSlot_bounds env fuel _ si pos _ _ ha b1 b3 hsi
      (by
        obtain ⟨p1, p2, p3, _⟩ := hP1
        apply hinc
        apply mul_nonneg (mul_nonneg (hpitch _) p1)
        exact detune_mult_nonneg _ _ p2 p3 b4 b5)
    exact ⟨c1, c2, c3, by rw [c4]; exact b4, by rw [c4]; exact b5⟩
  · have ha := h1 u (by omega)
    simp only at ha
    rw [ha]
    exact hS u hu

theorem Process_bounded [Archimedean α] (env : Env α τ A F G)
    (hpitch : ∀ x, 0 ≤ env.PitchToFreq x)
    (hinc : ∀ x, 0 ≤ x → 0 ≤ env.GetPhaseInc x)
    (hown : ∀ f, env.mOwner = some f → ∀ pos q, NonNegParams q → NonNegParams (f pos q))
    (fuel : Nat) (time : α) (out : ChannelBuffer α) (p : OscillatorVoiceParams α τ A)
    (v : Voice α τ A F) (hp : NonNegParams p) (hv : SlotsBounded env v)
    (r : Bool × RenderState α τ A F) (h : Process env fuel time out p v = some r) :
    SlotsBounded env r.2.voice := by
  by_cases hd : IsDone env v time = true
  · simp only [Process, hd, if_true, Option.some.injEq] at h
    subst h
    exact hv
  · have hd2 : IsDone env v time = false := by simpa using hd
    obtain ⟨_, hpos⟩ := Process_running env fuel time out p v hd2 r h
    rw [posLoop_eq_stepRange env fuel _ _ out.mBufferSize out.mBufferSize 0 _ rfl] at hpos
    have key := stepRange_invariant
      (sampleStep env fuel (decide (out.mActiveChannels = 1)) (env.GetPhaseInc p.mSyncFreq))
      (fun _ t => NonNegParams t.params ∧ SlotsBounded env t.voice)
      out.mBufferSize 0 _ r.2
      (fun i t t1 _ _ hI ht => sampleStep_bounded env hpitch hinc hown fuel _ _
        (hinc _ hp.2.2.2) i t t1 hI ht)
      ?_ hpos
    · exact key.2
    · refine ⟨hp, ?_⟩
      intro u hu
      simp only
      rw [setTypeLoop_eq env p _ 0 v.mOscData rfl]
      simp only
      split
      · exact hv u hu
      · exact hv u hu

theorem runCall_bounded [Archimedean α] (env : Env α τ A F G)
    (hpitch : ∀ x, 0 ≤ env.PitchToFreq x)
    (hinc : ∀ x, 0 ≤ x → 0 ≤ env.GetPhaseInc x)
    (hown : ∀ f, env.mOwner = some f → ∀ pos q, NonNegParams q → NonNegParams (f pos q))
    (hrand : ∀ g, -1 ≤ (env.ofRandom (-1) 1 g).1 ∧ (env.ofRandom (-1) 1 g).1 ≤ 1)
    (hpi : 0 < env.FTWO_PI)
    (fuel : Nat) (c : VoiceCall α τ A)
    (hc : ∀ t out p, c = VoiceCall.process t out p → NonNegParams p)
    (a b : Voice α τ A F × G)
    (hI : SlotsBounded env a.1) (h : runCall env fuel c a = some b) :
    SlotsBounded env b.1 := by
  cases c with
  | start time target p =>
    simp only [runCall, Option.some.injEq] at h
    subst h
    have e : (Start env time target p a.1).mOscData = a.1.mOscData := by
      simp only [Start]; split <;> rfl
    simp only [SlotsBounded, e]
    exact hI
  | stop time =>
    simp only [runCall, Option.some.injEq] at h
    subst h
    exact hI
  | clearVoice =>
    simp only [runCall, Option.some.injEq] at h
    subst h
    obtain ⟨h0, h1, h2, h3, _⟩ := ClearVoice_slots env a.2 a.1
    intro u hu
    obtain ⟨e1, e2⟩ := h3 u hu
    rw [e1, e2]
    have hc4 : (0 : α) ≤ env.FTWO_PI * 2 := by linarith
    refine ⟨le_refl 0, hc4, le_refl 0, ?_⟩
    by_cases hu0 : u = 0
    · subst hu0; rw [h0]; constructor <;> norm_num
    · by_cases hu1 : u = 1
      · subst hu1; rw [h1]; constructor <;> norm_num
      · obtain ⟨g1, e⟩ := h2 u (by omega) hu
        rw [e]; exact hrand g1
  | process time out p =>
    simp only [runCall] at h
    split at h
    · cases h
    · rename_i r hr
      simp only [Option.some.injEq] at h
      subst h
      exact Process_bounded env hpitch hinc hown fuel time out p a.1
        (hc time out p rfl) hI r hr

/-- A single-slot voice without owner whose phase never exceeds `FTWO_PI*2` during the
call: after `Process` the phase of slot 0 has advanced by `BufferSize()` phase increments
and its sync phase by `BufferSize()` sync increments. -/
theorem Process_single_nowrap (env : Env α τ A F G) (hown : env.mOwner = none)
    (hk : 0 < env.kMaxUnison) (p : OscillatorVoiceParams α τ A) (hun : p.mUnison = 1)
    (time : α) (out : ChannelBuffer α) (v : Voice α τ A F) (inc : α)
    (hinc : ∀ pos, env.GetPhaseInc (env.PitchToFreq (env.GetPitch pos) * p.mMult *
      ((p.mDetune - 1) * (v.mOscData 0).mDetuneFactor + 1)) = inc)
    (hnw : ∀ k : Nat, 1 ≤ k → k ≤ out.mBufferSize →
      (v.mOscData 0).mPhase + k * inc ≤ env.FTWO_PI * 2)
    (hd : IsDone env v time = false) (fuel : Nat) (r : Bool × RenderState α τ A F)
    (h : Process env fuel time out p v = some r) :
    (r.2.voice.mOscData 0).mPhase = (v.mOscData 0).mPhase + out.mBufferSize * inc ∧
    (r.2.voice.mOscData 0).mSyncPhase =
      (v.mOscData 0).mSyncPhase + out.mBufferSize * env.GetPhaseInc p.mSyncFreq := by
  obtain ⟨_, hpos⟩ := Process_running env fuel time out p v hd r h
  rw [posLoop_eq_stepRange env fuel _ _ out.mBufferSize out.mBufferSize 0 _ rfl] at hpos
  have key := stepRange_invariant
    (sampleStep env fuel (decide (out.mActiveChannels = 1)) (env.GetPhaseInc p.mSyncFreq))
    (fun i t => t.params = p ∧
      (t.voice.mOscData 0).mDetuneFactor = (v.mOscData 0).mDetuneFactor ∧
      (t.voice.mOscData 0).mPhase = (v.mOscData 0).mPhase + i * inc ∧
      (t.voice.mOscData 0).mSyncPhase =
        (v.mOscData 0).mSyncPhase + i * env.GetPhaseInc p.mSyncFreq)
    out.mBufferSize 0 _ r.2 ?_ ?_ hpos
  · simp only [Nat.zero_add] at key
    exact ⟨key.2.2.1, key.2.2.2⟩
  · intro i t t1 _ hi hI ht
    obtain ⟨hp, hdt, hph, hsy⟩ := hI
    obtain ⟨e1, _, d, hadv, e2, _⟩ := sampleStep_single env hown hk fuel _ _ i t t1
      (by rw [hp]; exact hun) ht
    rw [hp] at hadv e1
    obtain ⟨w, hw, rfl⟩ := advanceSlot_spec env fuel p _ i _ d hadv
    rw [hdt, hinc i, hph] at hw
    obtain ⟨_, _, hno⟩ := wrapPhase_spec env fuel _ _ w hw
    have hle : ¬ ((v.mOscData 0).mPhase + i * inc + inc > env.FTWO_PI * 2) := by
      have := hnw (i + 1) (by omega) (by omega)
      push_cast at this
      apply not_lt.mpr
      linarith
    have e := hno hle
    subst e
    refine ⟨e1, ?_, ?_, ?_⟩
    · rw [e2]; exact hdt
    · rw [e2]; push_cast; ring
    · rw [e2]; simp only; rw [hsy]; push_cast; ring
  · refine ⟨rfl, ?_, ?_, ?_⟩
    · simp only
      rw [setTypeLoop_eq env p _ 0 v.mOscData rfl]
      simp only
      split <;> rfl
    · simp only
      rw [setTypeLoop_eq env p _ 0 v.mOscData rfl]
      simp only [Nat.cast_zero, zero_mul, add_zero]
      split <;> rfl
    · simp only
      rw [setTypeLoop_eq env p _ 0 v.mOscData rfl]
      simp only [Nat.cast_zero, zero_mul, add_zero]
      split <;> rfl

end FieldLemmas

/-! ### Concrete runs over `ℚ` -/

/-- In the concrete environment: `ClearVoice`, `Start`, then one mono `Process` call of
`n` samples with a single unison slot whose phase never exceeds `FTWO_PI*2`.  The run
returns, slot 0 ends with phase `n` phase increments and sync phase `n` sync increments. -/
theorem envQ_single_run (p : OscillatorVoiceParams ℚ Nat (GateADSR ℚ)) (hun : p.mUnison = 1)
    (n : Nat) (inc : ℚ)
    (hinc : envQ.GetPhaseInc (440 * p.mMult * ((p.mDetune - 1) * 1 + 1)) = inc)
    (hnw : ∀ k : Nat, 1 ≤ k → k ≤ n → (k : ℚ) * inc ≤ envQ.FTWO_PI * 2) :
    ∃ r, Converges (fun f => runCalls envQ f
        [VoiceCall.clearVoice, VoiceCall.start 0 1 p,
         VoiceCall.process 0 (demoBuffer n 1) p] (demoVoice, 0)) r ∧
      (r.1.mOscData 0).mPhase = n * inc ∧
      (r.1.mOscData 0).mSyncPhase = n * envQ.GetPhaseInc p.mSyncFreq := by
  have hpi : (0 : ℚ) < envQ.FTWO_PI := by norm_num [envQ, demoEnv]
  obtain ⟨r, f0, hr⟩ := runCalls_converges envQ hpi
    [VoiceCall.clearVoice, VoiceCall.start 0 1 p,
     VoiceCall.process 0 (demoBuffer n 1) p] (demoVoice, 0)
  refine ⟨r, ⟨f0, hr⟩, ?_⟩
  have h := hr f0 (le_refl f0)
  simp only [runCalls, runCall] at h
  cases hP : Process envQ f0 0 (demoBuffer n 1) p
      (Start envQ 0 1 p (ClearVoice envQ 0 demoVoice).1) with
  | none => rw [hP] at h; cases h
  | some r1 =>
    rw [hP] at h
    simp only [Option.some.injEq] at h
    subst h
    obtain ⟨h0, _, _, h3, _⟩ := ClearVoice_slots envQ 0 (demoVoice : Voice ℚ Nat (GateADSR ℚ) ℚ)
    have hosc : (Start envQ 0 1 p (ClearVoice envQ 0 demoVoice).1).mOscData =
        (ClearVoice envQ 0 demoVoice).1.mOscData := by
      simp only [Start]; split <;> rfl
    have hdone : IsDone envQ (Start envQ 0 1 p (ClearVoice envQ 0 demoVoice).1) 0 = false := by
      simp only [IsDone, Start]
      split <;> rfl
    obtain ⟨e1, e2⟩ := h3 0 (by norm_num [envQ, demoEnv])
    have key := Process_single_nowrap envQ rfl (by norm_num [envQ, demoEnv]) p hun 0
      (demoBuffer n 1) (Start envQ 0 1 p (ClearVoice envQ 0 demoVoice).1) inc
      (fun pos => by
        rw [hosc, h0]
        have : envQ.PitchToFreq (envQ.GetPitch pos) = 440 := rfl
        rw [this]; exact hinc)
      (fun k hk1 hk2 => by
        rw [hosc, e1, zero_add]
        exact hnw k hk1 hk2)
      hdone f0 r1 hP
    rw [hosc, e1, e2, zero_add, zero_add] at key
    exact key

/-! ### The phase wrap at `+∞` -/

theorem XFloat.fin_add_fin (a b : ℚ) : XFloat.fin a + XFloat.fin b = XFloat.fin (a + b) := rfl

theorem XFloat.fin_sub_fin (a b : ℚ) : XFloat.fin a - XFloat.fin b = XFloat.fin (a + -b) := rfl

theorem XFloat.fin_mul_fin (a b : ℚ) : XFloat.fin a * XFloat.fin b = XFloat.fin (a * b) := rfl

theorem XFloat.fin_add_pinf (a : ℚ) : XFloat.fin a + XFloat.pinf = XFloat.pinf := rfl

theorem XFloat.pinf_sub_fin (a : ℚ) : XFloat.pinf - XFloat.fin a = XFloat.pinf := rfl

theorem XFloat.pinf_mul_fin (b : ℚ) (h : 0 < b) : XFloat.pinf * XFloat.fin b = XFloat.pinf := by
  show XFloat.infTimes true b = XFloat.pinf
  simp only [XFloat.infTimes, if_pos h, if_true]

theorem XFloat.zero_eq : (0 : XFloat) = XFloat.fin 0 := rfl

theorem XFloat.one_eq : (1 : XFloat) = XFloat.fin 1 := rfl

theorem wrapPhase_pinf (fuel : Nat) (syncPhase : XFloat) :
    wrapPhase envInf fuel XFloat.pinf syncPhase = none := by
  induction fuel generalizing syncPhase with
  | zero => rfl
  | succ n ih =>
    have hc : XFloat.pinf > envInf.FTWO_PI * ((2 : Nat) : XFloat) := by decide
    have hs : XFloat.pinf - envInf.FTWO_PI * ((2 : Nat) : XFloat) = XFloat.pinf := by rfl
    rw [wrapPhase, if_pos hc, hs]
    exact ih 0

theorem XFloat.pinf_mul_zero : XFloat.pinf * XFloat.fin 0 = XFloat.nan := by
  show XFloat.infTimes true 0 = XFloat.nan
  simp only [XFloat.infTimes, lt_self_iff_false, if_false]

theorem XFloat.nan_mul (a : XFloat) : XFloat.nan * a = XFloat.nan := by
  cases a <;> rfl

theorem XFloat.fin_add_nan (a : ℚ) : XFloat.fin a + XFloat.nan = XFloat.nan := rfl

theorem wrapPhase_nan (fuel : Nat) (syncPhase : XFloat) :
    wrapPhase envInf fuel XFloat.nan syncPhase = some (XFloat.nan, syncPhase) := by
  have hc : ¬ XFloat.nan > envInf.FTWO_PI * ((2 : Nat) : XFloat) := by decide
  cases fuel with
  | zero => simp only [wrapPhase, if_neg hc]
  | succ n => rw [wrapPhase, if_neg hc]

/-- In `envInf` the first phase increment of slot 0 of the demo voice is `+∞`, so its phase
becomes `+∞`. -/
theorem envInf_phase_inf :
    (demoVoice.mOscData 0 : OscData XFloat Nat).mPhase +
      envInf.GetPhaseInc (envInf.PitchToFreq (envInf.GetPitch 0) * (demoParams 1 0).mMult *
        (((demoParams 1 0).mDetune - 1) *
          (demoVoice.mOscData 0 : OscData XFloat Nat).mDetuneFactor + 1)) = XFloat.pinf := by
  show XFloat.fin 0 + XFloat.pinf * XFloat.fin 1 *
    ((XFloat.fin 1 - XFloat.fin 1) * XFloat.fin 1 + XFloat.fin 1) *
    XFloat.fin ((6283185 / 1000000) / 44100) = XFloat.pinf
  rw [XFloat.pinf_mul_fin 1 (by norm_num), XFloat.fin_sub_fin, XFloat.fin_mul_fin,
    XFloat.fin_add_fin, XFloat.pinf_mul_fin _ (by norm_num),
    XFloat.pinf_mul_fin _ (by norm_num), XFloat.fin_add_pinf]

/-- In `envInf` the call on the sounding demo voice does not return, whatever the fuel. -/
theorem envInf_Process_none (fuel : Nat) :
    Process envInf fuel 0 (demoBuffer 64 1) (demoParams 1 0) demoVoice = none := by
  apply Process_none_of_advance envInf fuel 0 (demoBuffer 64 1) (demoParams 1 0) demoVoice rfl
  · decide
  · decide
  · have hslot : setTypeLoop envInf (demoParams 1 0) 0
        (demoVoice : Voice XFloat Nat (GateADSR XFloat) XFloat).mOscData 0 =
        demoVoice.mOscData 0 := by
      rw [setTypeLoop_eq envInf _ _ 0 _ rfl]
      simp only
      split <;> rfl
    rw [hslot]
    have hco : computeSliders envInf 0 (demoParams 1 0) = demoParams 1 0 := rfl
    rw [hco]
    simp only [advanceSlot]
    rw [envInf_phase_inf, wrapPhase_pinf]

/-- In `envInf` (frequency `+∞`) with frequency multiplier `0`: `ClearVoice`, `Start`, one
mono `Process` call of one sample.  The frequency is `+∞ * 0 = NaN`, the run returns, and
slot 0 ends with phase `NaN`. -/
theorem envInf_nan_run :
    ∃ r, Converges (fun f => runCalls envInf f
        [VoiceCall.clearVoice, VoiceCall.start 0 1 { demoParams 1 0 with mMult := 0 },
         VoiceCall.process 0 (demoBuffer 1 1) { demoParams 1 0 with mMult := 0 }]
        (demoVoice, 0)) r ∧
      (r.1.mOscData 0).mPhase = XFloat.nan := by
  obtain ⟨h0, _, _, h3, _⟩ :=
    ClearVoice_slots envInf 0 (demoVoice : Voice XFloat Nat (GateADSR XFloat) XFloat)
  obtain ⟨e1, e2⟩ := h3 0 (by decide)
  have hosc : (Start envInf 0 1 { demoParams 1 0 with mMult := 0 }
      (ClearVoice envInf 0 demoVoice).1).mOscData =
      (ClearVoice envInf 0 demoVoice).1.mOscData := by
    simp only [Start]; split <;> rfl
  have hdone : IsDone envInf (Start envInf 0 1 { demoParams 1 0 with mMult := 0 }
      (ClearVoice envInf 0 demoVoice).1) 0 = false := by
    simp only [IsDone, Start]
    split <;> rfl
  have hinc : (0 : XFloat) + envInf.GetPhaseInc (envInf.PitchToFreq (envInf.GetPitch 0) *
      ({ demoParams 1 0 with mMult := 0 } :
        OscillatorVoiceParams XFloat Nat (GateADSR XFloat)).mMult *
      ((({ demoParams 1 0 with mMult := 0 } :
        OscillatorVoiceParams XFloat Nat (GateADSR XFloat)).mDetune - 1) * 1 + 1)) =
      XFloat.nan := by
    show XFloat.fin 0 + XFloat.pinf * XFloat.fin 0 *
      ((XFloat.fin 1 - XFloat.fin 1) * XFloat.fin 1 + XFloat.fin 1) *
      XFloat.fin ((6283185 / 1000000) / 44100) = XFloat.nan
    rw [XFloat.pinf_mul_zero, XFloat.nan_mul, XFloat.nan_mul, XFloat.fin_add_nan]
  obtain ⟨r1, hr1, _, hph, _⟩ := Process_single_one envInf rfl (by decide)
    { demoParams 1 0 with mMult := 0 } rfl 0 (demoBuffer 1 1)
    (Start envInf 0 1 { demoParams 1 0 with mMult := 0 } (ClearVoice envInf 0 demoVoice).1)
    rfl hdone 0 (XFloat.nan, 0)
    (by rw [hosc, e1, e2, h0, hinc, wrapPhase_nan])
  refine ⟨(r1.2.voice, (ClearVoice envInf 0 demoVoice).2), ?_, hph⟩
  apply runCalls_converges_of_some envInf 0
  simp only [runCalls, runCall, hr1]

/-! ### The end-to-end sine render over `ℝ` -/

section Sine

variable {τ A F G : Type}

/-- A single sine slot without owner, filter, detune or phase offset, full envelope, mono
buffer: whenever `Process` returns, sample `n` of channel 0 has received
`sin(2π·440·(n+1)/sampleRate) * 1 * (1 * 0.1)`. -/
theorem render_sine (env : Env ℝ τ A F G) (sampleRate : ℝ)
    (hpi : env.FTWO_PI = 2 * Real.pi)
    (hinc : ∀ f, env.GetPhaseInc f = 2 * Real.pi * f / sampleRate)
    (hown : env.mOwner = none) (hk : 0 < env.kMaxUnison)
    (hpitch : ∀ pos, env.PitchToFreq (env.GetPitch pos) = 440)
    (p : OscillatorVoiceParams ℝ τ A)
    (hsine : ∀ (o : EnvOscillator ℝ τ) (x : ℝ), o.mType = p.mOscType →
      env.oscValue o x = Real.sin x)
    (hun : p.mUnison = 1) (hmult : p.mMult = 1) (hdet : p.mDetune = 1)
    (hoff : p.mPhaseOffset = 0) (hsync : p.mSync = false) (hvol : p.mVol = 1)
    (time : ℝ) (out : ChannelBuffer ℝ) (v : Voice ℝ τ A F)
    (hph : (v.mOscData 0).mPhase = 0) (hfilt : v.mUseFilter = false)
    (hd : IsDone env v time = false) (hadsr : ∀ t, env.adsrValue v.mAdsr t = 1)
    (hch : out.mActiveChannels = 1)
    (fuel : Nat) (r : Bool × RenderState ℝ τ A F)
    (h : Process env fuel time out p v = some r) :
    ∀ n, n < out.mBufferSize →
      r.2.out.mBuffers 0 n =
        out.mBuffers 0 n + 0.1 * Real.sin (2 * Real.pi * 440 * (n + 1) / sampleRate) := by
  obtain ⟨_, hpos⟩ := Process_running env fuel time out p v hd r h
  have hmono : decide (out.mActiveChannels = 1) = true := by simp [hch]
  rw [hmono] at hpos
  rw [posLoop_eq_stepRange env fuel _ _ out.mBufferSize out.mBufferSize 0 _ rfl] at hpos
  have key := stepRange_invariant
    (sampleStep env fuel true (env.GetPhaseInc p.mSyncFreq))
    (fun i t => t.params = p ∧ t.voice.mAdsr = v.mAdsr ∧ t.voice.mUseFilter = false ∧
      (t.voice.mOscData 0).mOsc.mType = p.mOscType ∧
      (∃ m : Nat, (t.voice.mOscData 0).mPhase =
        i * (2 * Real.pi * 440 / sampleRate) - m * (2 * Real.pi)) ∧
      (∀ n, n < i → t.out.mBuffers 0 n =
        out.mBuffers 0 n + 0.1 * Real.sin (2 * Real.pi * 440 * (n + 1) / sampleRate)) ∧
      (∀ n, i ≤ n → t.out.mBuffers 0 n = out.mBuffers 0 n))
    out.mBufferSize 0 _ r.2 ?_ ?_ hpos
  · simp only [Nat.zero_add] at key
    exact key.2.2.2.2.2.1
  · intro i t t1 _ _ hI ht
    obtain ⟨hp, hA, hF, hT, ⟨m, hm⟩, hlo, hhi⟩ := hI
    obtain ⟨e1, _, d, hadv, e2, e3⟩ := sampleStep_single env hown hk fuel true _ i t t1
      (by rw [hp]; exact hun) ht
    have hfr := sampleStep_frame env fuel true _ i t t1 ht
    have e4 := e3 hF
    rw [hp] at hadv e1 e4
    obtain ⟨w, hw, hdeq⟩ := advanceSlot_spec env fuel p _ i _ d hadv
    obtain ⟨_, hwrap, hno⟩ := wrapPhase_spec env fuel _ _ w hw
    have hincv : env.GetPhaseInc (env.PitchToFreq (env.GetPitch i) * p.mMult *
        ((p.mDetune - 1) * (t.voice.mOscData 0).mDetuneFactor + 1)) =
        2 * Real.pi * 440 / sampleRate := by
      rw [hinc, hpitch, hmult, hdet]; ring
    rw [hincv] at hwrap hno
    have hphase : ∃ m1 : Nat, d.mPhase =
        ((i + 1 : Nat) : ℝ) * (2 * Real.pi * 440 / sampleRate) - m1 * (2 * Real.pi) := by
      rw [hdeq]
      simp only
      by_cases hc : (t.voice.mOscData 0).mPhase + 2 * Real.pi * 440 / sampleRate >
          env.FTWO_PI * 2
      · obtain ⟨_, _, k, _, ek⟩ := hwrap hc
        refine ⟨m + 2 * k, ?_⟩
        rw [ek, hm, hpi]; push_cast; ring
      · have ew := hno hc
        refine ⟨m, ?_⟩
        rw [ew]; simp only; rw [hm]; push_cast; ring
    have htype : d.mOsc.mType = p.mOscType := by
      rw [hdeq]; exact hT
    obtain ⟨m1, hm1⟩ := hphase
    have hsample : slotSample env p (env.adsrValue t.voice.mAdsr t.time) 0 d =
        0.1 * Real.sin (2 * Real.pi * 440 * ((i : ℝ) + 1) / sampleRate) := by
      have h02 : ¬ (0 : Nat) ≥ 2 := by omega
      simp only [slotSample, rawSample, if_neg h02, hsync, Bool.false_eq_true, if_false]
      rw [hsine d.mOsc _ htype, hA, hadsr, hvol, hoff, hm1, add_zero,
        Real.sin_sub_nat_mul_two_pi]
      push_cast
      have : ((i : ℝ) + 1) * (2 * Real.pi * 440 / sampleRate) =
          2 * Real.pi * 440 * ((i : ℝ) + 1) / sampleRate := by ring
      rw [this]; ring
    refine ⟨e1, hfr.2.1.trans hA, hfr.1.trans hF, ?_, ⟨m1, ?_⟩, ?_, ?_⟩
    · rw [e2]; exact htype
    · rw [e2]; exact hm1
    · intro n hn
      rw [e4, writeOut_apply]
      by_cases hni : n = i
      · subst hni
        simp only [and_self, if_true, mixSlot]
        rw [hhi n (le_refl n), hsample]; ring
      · simp only [hni, and_false, if_false]
        exact hlo n (by omega)
    · intro n hn
      rw [e4, writeOut_apply]
      have hni : ¬ n = i := by omega
      simp only [hni, and_false, if_false]
      exact hhi n (by omega)
  · refine ⟨rfl, rfl, hfilt, ?_, ⟨0, ?_⟩, fun n hn => absurd hn (Nat.not_lt_zero n),
      fun _ _ => rfl⟩
    · simp only
      rw [setTypeLoop_eq env p _ 0 v.mOscData rfl]
      have hc : (0 ≤ 0 ∧ 0 < unisonCount env p) := by
        unfold unisonCount; rw [hun]; omega
      simp only [if_pos hc]
    · simp only
      rw [setTypeLoop_eq env p _ 0 v.mOscData rfl]
      simp only [Nat.cast_zero, zero_mul, sub_zero]
      split <;> exact hph

end Sine

/-! ## The claims -/

/-! ### C1: end-to-end sine render -/

section ClaimC1

variable {τ A F G : Type}

/-- C1 (end-to-end render), amended.  For a voice whose slot 0 has phase 0 (freshly
cleared), unison 1, frequency multiplier 1, detune depth 1, phase offset 0, hard sync off,
volume 1, no filter, sine oscillator, no owner, every position at 440 Hz, an envelope
that is not done and has value 1 throughout, and a mono 64-sample buffer that is all
zero, with `FTWO_PI = 2π` and `GetPhaseInc(f) = 2π·f/sampleRate` over the reals:
`Process` returns `true` and channel 0 holds `0.1 * sin(2π·440·(n+1)/sampleRate)` at every
index `n` in `0..63`.  The phase is advanced before the oscillator is evaluated, so sample
`n` is taken at phase `(n+1)` increments, not `n`. -/
theorem C1_render_sine (env : Env ℝ τ A F G) (sampleRate : ℝ)
    (hpi : env.FTWO_PI = 2 * Real.pi)
    (hinc : ∀ f, env.GetPhaseInc f = 2 * Real.pi * f / sampleRate)
    (hown : env.mOwner = none) (hk : 0 < env.kMaxUnison)
    (hpitch : ∀ pos, env.PitchToFreq (env.GetPitch pos) = 440)
    (p : OscillatorVoiceParams ℝ τ A)
    (hsine : ∀ (o : EnvOscillator ℝ τ) (x : ℝ), o.mType = p.mOscType →
      env.oscValue o x = Real.sin x)
    (hun : p.mUnison = 1) (hmult : p.mMult = 1) (hdet : p.mDetune = 1)
    (hoff : p.mPhaseOffset = 0) (hsync : p.mSync = false) (hvol : p.mVol = 1)
    (time : ℝ) (out : ChannelBuffer ℝ) (v : Voice ℝ τ A F)
    (hph : (v.mOscData 0).mPhase = 0) (hfilt : v.mUseFilter = false)
    (hd : IsDone env v time = false) (hadsr : ∀ t, env.adsrValue v.mAdsr t = 1)
    (hch : out.mActiveChannels = 1) (hsize : out.mBufferSize = 64)
    (hzero : ∀ n, out.mBuffers 0 n = 0) :
    (∃ r, Converges (fun f => Process env f time out p v) r) ∧
    ∀ fuel r, Process env fuel time out p v = some r →
      r.1 = true ∧
      ∀ n : Nat, n < 64 →
        r.2.out.mBuffers 0 n =
          0.1 * Real.sin (2 * Real.pi * 440 * (n + 1) / sampleRate) := by
  have hpos : 0 < env.FTWO_PI := by rw [hpi]; linarith [Real.pi_pos]
  obtain ⟨r0, hr0, _⟩ := Process_converges env hpos time out p v
  refine ⟨⟨r0, hr0⟩, fun fuel r h => ⟨(Process_running env fuel time out p v hd r h).1, ?_⟩⟩
  intro n hn
  have key := render_sine env sampleRate hpi hinc hown hk hpitch p hsine hun hmult hdet hoff
    hsync hvol time out v hph hfilt hd hadsr hch fuel r h n (by rw [hsize]; exact hn)
  rw [key, hzero, zero_add]

end ClaimC1

/-- Witness for C1: the concrete scenario at 44100 Hz. -/
theorem C1_render_sine_witness :
    ((sineEnv Real.pi Real.sin 44100).FTWO_PI = 2 * Real.pi ∧
      IsDone (sineEnv Real.pi Real.sin 44100) demoVoice 0 = false) ∧
    ∀ fuel r, Process (sineEnv Real.pi Real.sin 44100) fuel 0 (demoBuffer 64 1)
        (demoParams 1 0) demoVoice = some r →
      r.1 = true ∧
      ∀ n : Nat, n < 64 →
        r.2.out.mBuffers 0 n = 0.1 * Real.sin (2 * Real.pi * 440 * (n + 1) / 44100) :=
  ⟨⟨rfl, rfl⟩,
   (C1_render_sine (sineEnv Real.pi Real.sin 44100) 44100 rfl (fun _ => rfl) rfl
      (by norm_num [sineEnv, demoEnv]) (fun _ => rfl) (demoParams 1 0)
      (fun _ _ _ => rfl) rfl rfl rfl rfl rfl rfl 0 (demoBuffer 64 1) demoVoice
      rfl rfl rfl (fun _ => rfl) rfl rfl (fun _ => rfl)).2⟩

/-- Counterexample to C1 as stated: in the concrete scenario at 44100 Hz `Process` returns
`true`, and sample 0 of channel 0 is `0.1 * sin(2π·440·1/44100)`, which is positive, whereas
the claim gives `0.1 * sin(2π·440·0/44100) = 0` for index 0. -/
theorem C1_counterexample :
    ∃ r, Converges (fun f => Process (sineEnv Real.pi Real.sin 44100) f 0 (demoBuffer 64 1)
        (demoParams 1 0) demoVoice) r ∧
      r.1 = true ∧
      r.2.out.mBuffers 0 0 = 0.1 * Real.sin (2 * Real.pi * 440 * 1 / 44100) ∧
      0.1 * Real.sin (2 * Real.pi * 440 * (0 : ℝ) / 44100) = 0 ∧
      r.2.out.mBuffers 0 0 ≠ 0.1 * Real.sin (2 * Real.pi * 440 * (0 : ℝ) / 44100) := by
  have hpos : 0 < (sineEnv Real.pi Real.sin 44100).FTWO_PI := by
    show 0 < 2 * Real.pi
    linarith [Real.pi_pos]
  obtain ⟨r, ⟨f0, hr⟩, hb⟩ := Process_converges (sineEnv Real.pi Real.sin 44100) hpos 0
    (demoBuffer 64 1) (demoParams 1 0) demoVoice
  have h := hr f0 (le_refl f0)
  simp only at h
  have key := render_sine (sineEnv Real.pi Real.sin 44100) 44100 rfl (fun _ => rfl) rfl
      (by norm_num [sineEnv, demoEnv]) (fun _ => rfl) (demoParams 1 0)
      (fun _ _ _ => rfl) rfl rfl rfl rfl rfl rfl 0 (demoBuffer 64 1) demoVoice
      rfl rfl rfl (fun _ => rfl) rfl f0 r h 0 (by norm_num [demoBuffer])
  have e0 : r.2.out.mBuffers 0 0 = 0.1 * Real.sin (2 * Real.pi * 440 * 1 / 44100) := by
    rw [key]
    simp only [demoBuffer, Nat.cast_zero, zero_add]
  have hsin : 0 < Real.sin (2 * Real.pi * 440 * 1 / 44100) := by
    apply Real.sin_pos_of_pos_of_lt_pi
    · have := Real.pi_pos; positivity
    · have := Real.pi_pos; linarith
  have hz : 0.1 * Real.sin (2 * Real.pi * 440 * (0 : ℝ) / 44100) = 0 := by
    simp
  refine ⟨r, ⟨f0, hr⟩, ?_, e0, hz, ?_⟩
  · rw [hb]; rfl
  · rw [e0, hz]
    have : (0 : ℝ) < 0.1 * Real.sin (2 * Real.pi * 440 * 1 / 44100) := by positivity
    exact ne_of_gt this

/-! ### C2: phase bounds -/

section ClaimC2

variable {α τ A F G : Type} [LinearOrderedField α]

/-- C2 (phase bounds), amended.  In exact arithmetic (the number type is an Archimedean
ordered field: every value is finite, nothing is rounded, nothing overflows; the IEEE
values `+∞`, `-∞`, `NaN` do not exist) assume non-negative frequencies: `PitchToFreq` returns
non-negative values, `GetPhaseInc` maps non-negative arguments to non-negative
increments, every `Process` call gets parameters with `mMult >= 0`, `0 <= mDetune <= 2`
and `mSyncFreq >= 0`, the owner callback keeps the parameters so, and the random source
returns values in `[-1,1]`.  Then after `ClearVoice` followed by any sequence of
`Start`/`Stop`/`Process`/`ClearVoice` calls (which returns for enough fuel), every slot
of the array has its phase in the closed interval `[0, FTWO_PI*2]` and a non-negative
sync phase.  No upper bound on the sync phase is claimed, and nothing is claimed for
non-finite values: with the IEEE special values a `NaN` phase arises under the same sign
conditions (frequency `+∞`, multiplier `0`). -/
theorem C2_phase_bounds [Archimedean α] (env : Env α τ A F G) (hpi : 0 < env.FTWO_PI)
    (hpitch : ∀ x, 0 ≤ env.PitchToFreq x)
    (hinc : ∀ x, 0 ≤ x → 0 ≤ env.GetPhaseInc x)
    (hown : ∀ f, env.mOwner = some f → ∀ pos q, NonNegParams q → NonNegParams (f pos q))
    (hrand : ∀ g, -1 ≤ (env.ofRandom (-1) 1 g).1 ∧ (env.ofRandom (-1) 1 g).1 ≤ 1)
    (calls : List (VoiceCall α τ A))
    (hcalls : ∀ t out p, VoiceCall.process t out p ∈ calls → NonNegParams p)
    (g : G) (v : Voice α τ A F) :
    (∃ r, Converges (fun f => runCalls env f (VoiceCall.clearVoice :: calls) (v, g)) r) ∧
    ∀ fuel r, runCalls env fuel (VoiceCall.clearVoice :: calls) (v, g) = some r →
      ∀ u, u < env.kMaxUnison →
        0 ≤ (r.1.mOscData u).mPhase ∧ (r.1.mOscData u).mPhase ≤ env.FTWO_PI * 2 ∧
        0 ≤ (r.1.mOscData u).mSyncPhase := by
  refine ⟨runCalls_converges env hpi _ _, fun fuel r h => ?_⟩
  simp only [runCalls] at h
  cases hc : runCall env fuel VoiceCall.clearVoice (v, g) with
  | none => rw [hc] at h; cases h
  | some s1 =>
    rw [hc] at h
    have h1 : SlotsBounded env s1.1 := by
      simp only [runCall, Option.some.injEq] at hc
      subst hc
      obtain ⟨h0, h1, h2, h3, _⟩ := ClearVoice_slots env g v
      intro u hu
      obtain ⟨e1, e2⟩ := h3 u hu
      rw [e1, e2]
      have hc4 : (0 : α) ≤ env.FTWO_PI * 2 := by linarith
      refine ⟨le_refl 0, hc4, le_refl 0, ?_⟩
      by_cases hu0 : u = 0
      · subst hu0; rw [h0]; constructor <;> norm_num
      · by_cases hu1 : u = 1
        · subst hu1; rw [h1]; constructor <;> norm_num
        · obtain ⟨g1, e⟩ := h2 u (by omega) hu
          rw [e]; exact hrand g1
    have key := runCalls_invariant env fuel (fun s => SlotsBounded env s.1) calls s1 r
      (fun c hcm a b hI hcb => runCall_bounded env hpitch hinc hown hrand hpi fuel c
        (fun t out p e => hcalls t out p (e ▸ hcm)) a b hI hcb) h1 h
    intro u hu
    obtain ⟨a1, a2, a3, _, _⟩ := key u hu
    exact ⟨a1, a2, a3⟩

end ClaimC2

/-- Witness for C2: the concrete environment and `ClearVoice`, `Start`, `Process` with
the demo parameters (sync frequency 880 Hz). -/
theorem C2_phase_bounds_witness :
    ((0 : ℚ) < envQ.FTWO_PI ∧ (∀ x, (0 : ℚ) ≤ envQ.PitchToFreq x) ∧
      (∀ x : ℚ, 0 ≤ x → 0 ≤ envQ.GetPhaseInc x) ∧
      (∀ g, (-1 : ℚ) ≤ (envQ.ofRandom (-1) 1 g).1 ∧ (envQ.ofRandom (-1) 1 g).1 ≤ 1) ∧
      NonNegParams (demoParams 3 880 : OscillatorVoiceParams ℚ Nat (GateADSR ℚ))) ∧
    ∀ fuel r,
      runCalls envQ fuel
        [VoiceCall.clearVoice, VoiceCall.start 0 1 (demoParams 3 880),
         VoiceCall.process 0 (demoBuffer 64 2) (demoParams 3 880)] (demoVoice, 0) = some r →
      ∀ u, u < envQ.kMaxUnison →
        0 ≤ (r.1.mOscData u).mPhase ∧ (r.1.mOscData u).mPhase ≤ envQ.FTWO_PI * 2 ∧
        0 ≤ (r.1.mOscData u).mSyncPhase :=
  have hpi : (0 : ℚ) < envQ.FTWO_PI := by norm_num [envQ, demoEnv]
  have hpitch : ∀ x, (0 : ℚ) ≤ envQ.PitchToFreq x := fun x => by norm_num [envQ, demoEnv]
  have hinc : ∀ x : ℚ, 0 ≤ x → 0 ≤ envQ.GetPhaseInc x := fun x hx => by
    simp only [envQ, demoEnv]
    exact mul_nonneg hx (by norm_num)
  have hrand : ∀ g, (-1 : ℚ) ≤ (envQ.ofRandom (-1) 1 g).1 ∧ (envQ.ofRandom (-1) 1 g).1 ≤ 1 :=
    fun g => by norm_num [envQ, demoEnv]
  have hp : NonNegParams (demoParams 3 880 : OscillatorVoiceParams ℚ Nat (GateADSR ℚ)) := by
    norm_num [NonNegParams, demoParams]
  ⟨⟨hpi, hpitch, hinc, hrand, hp⟩,
   (C2_phase_bounds envQ hpi hpitch hinc
      (fun f hf => by simp [envQ, demoEnv] at hf) hrand
      [VoiceCall.start 0 1 (demoParams 3 880),
       VoiceCall.process 0 (demoBuffer 64 2) (demoParams 3 880)]
      (fun t out p hm => by
        simp only [List.mem_cons, List.mem_singleton, VoiceCall.process.injEq,
          List.not_mem_nil, or_false, false_or, reduceCtorEq] at hm
        rw [hm.2.2]; exact hp)
      0 demoVoice).2⟩

/-- Counterexample to C2 as stated, three runs from a cleared voice in the concrete
environment (`FTWO_PI*2 = 12.56637`, 44100 Hz, pitch at 440 Hz), each `ClearVoice`,
`Start`, one mono `Process` call with a single unison slot:
(a) sync frequency 30000 Hz, 3 samples: slot 0 ends with sync phase `12.8228...`, not below
`FTWO_PI*2` (the sync phase is only reset when the phase wraps);
(b) frequency multiplier `-1`, 1 sample: slot 0 ends with a negative phase;
(c) frequency multiplier `2205/11` (an increment of exactly `FTWO_PI*2`), 1 sample: slot 0
ends with phase equal to `FTWO_PI*2`, which the loop condition `>` does not wrap;
(d) with the IEEE special values (`envInf`: the pitch has frequency `+∞`) and frequency
multiplier `0`, 1 sample: every sign condition holds under the IEEE comparisons
(`PitchToFreq >= 0`, `GetPhaseInc` non-negative on non-negative arguments, `mMult >= 0`,
`0 <= mDetune <= 2`, `mSyncFreq >= 0`), the frequency is `+∞ * 0 = NaN`, the run returns and
slot 0 ends with phase `NaN`, which is neither `>= 0` nor `< FTWO_PI*2`. -/
theorem C2_counterexample :
    envQ.FTWO_PI * 2 = 1256637 / 100000 ∧
    (∃ r, Converges (fun f => runCalls envQ f
        [VoiceCall.clearVoice, VoiceCall.start 0 1 (demoParams 1 30000),
         VoiceCall.process 0 (demoBuffer 3 1) (demoParams 1 30000)] (demoVoice, 0)) r ∧
      (r.1.mOscData 0).mSyncPhase = 1256637 / 98000 ∧
      ¬ (r.1.mOscData 0).mSyncPhase < envQ.FTWO_PI * 2) ∧
    (∃ r, Converges (fun f => runCalls envQ f
        [VoiceCall.clearVoice, VoiceCall.start 0 1 { demoParams 1 0 with mMult := -1 },
         VoiceCall.process 0 (demoBuffer 1 1) { demoParams 1 0 with mMult := -1 }]
        (demoVoice, 0)) r ∧
      (r.1.mOscData 0).mPhase = -(4607669 / 73500000) ∧
      ¬ 0 ≤ (r.1.mOscData 0).mPhase) ∧
    (∃ r, Converges (fun f => runCalls envQ f
        [VoiceCall.clearVoice, VoiceCall.start 0 1 { demoParams 1 0 with mMult := 2205 / 11 },
         VoiceCall.process 0 (demoBuffer 1 1) { demoParams 1 0 with mMult := 2205 / 11 }]
        (demoVoice, 0)) r ∧
      (r.1.mOscData 0).mPhase = 1256637 / 100000 ∧
      ¬ (r.1.mOscData 0).mPhase < envQ.FTWO_PI * 2) ∧
    ((∀ x, (0 : XFloat) ≤ envInf.PitchToFreq x) ∧
      (∀ x, (0 : XFloat) ≤ x → 0 ≤ envInf.GetPhaseInc x) ∧
      (0 : XFloat) ≤ ({ demoParams 1 0 with mMult := 0 } :
        OscillatorVoiceParams XFloat Nat (GateADSR XFloat)).mMult ∧
      (0 : XFloat) ≤ ({ demoParams 1 0 with mMult := 0 } :
        OscillatorVoiceParams XFloat Nat (GateADSR XFloat)).mDetune ∧
      ({ demoParams 1 0 with mMult := 0 } :
        OscillatorVoiceParams XFloat Nat (GateADSR XFloat)).mDetune ≤ XFloat.fin 2 ∧
      (0 : XFloat) ≤ ({ demoParams 1 0 with mMult := 0 } :
        OscillatorVoiceParams XFloat Nat (GateADSR XFloat)).mSyncFreq ∧
      ∃ r, Converges (fun f => runCalls envInf f
          [VoiceCall.clearVoice, VoiceCall.start 0 1 { demoParams 1 0 with mMult := 0 },
           VoiceCall.process 0 (demoBuffer 1 1) { demoParams 1 0 with mMult := 0 }]
          (demoVoice, 0)) r ∧
        (r.1.mOscData 0).mPhase = XFloat.nan ∧
        ¬ (0 : XFloat) ≤ (r.1.mOscData 0).mPhase ∧
        ¬ (r.1.mOscData 0).mPhase < envInf.FTWO_PI * ((2 : Nat) : XFloat)) := by
  have hc : envQ.FTWO_PI * 2 = 1256637 / 100000 := by norm_num [envQ, demoEnv]
  refine ⟨hc, ?_, ?_, ?_, ?_⟩
  rotate_left 3
  · refine ⟨fun _ => (rfl : XFloat.le (XFloat.fin 0) XFloat.pinf = true), ?_, by decide,
      by decide, by decide, by decide, ?_⟩
    · intro x hx
      cases x with
      | fin q =>
        have hq : (0 : ℚ) ≤ q := by
          have : decide ((0 : ℚ) ≤ q) = true := hx
          simpa using this
        show XFloat.le (XFloat.fin 0) (XFloat.fin (q * ((6283185 / 1000000) / 44100))) = true
        have : (0 : ℚ) ≤ q * ((6283185 / 1000000) / 44100) := mul_nonneg hq (by norm_num)
        simpa [XFloat.le] using this
      | pinf =>
        show XFloat.le (XFloat.fin 0) (XFloat.pinf * XFloat.fin ((6283185 / 1000000) / 44100))
          = true
        rw [XFloat.pinf_mul_fin _ (by norm_num)]
        rfl
      | ninf => exact absurd hx (by decide)
      | nan => exact absurd hx (by decide)
    · obtain ⟨r, hr, hph⟩ := envInf_nan_run
      refine ⟨r, hr, hph, ?_, ?_⟩
      · rw [hph]; decide
      · rw [hph]; decide
  · obtain ⟨r, hr, _, e2⟩ := envQ_single_run (demoParams 1 30000) rfl 3 (4607669 / 73500000)
      (by norm_num [envQ, demoEnv, demoParams])
      (fun k _ hk2 => by
        rw [hc]
        have : (k : ℚ) ≤ 3 := by exact_mod_cast hk2
        nlinarith)
    have e3 : (r.1.mOscData 0).mSyncPhase = 1256637 / 98000 := by
      rw [e2]; norm_num [envQ, demoEnv, demoParams]
    exact ⟨r, hr, e3, by rw [e3, hc]; norm_num⟩
  · obtain ⟨r, hr, e1, _⟩ := envQ_single_run { demoParams 1 0 with mMult := -1 } rfl 1
      (-(4607669 / 73500000))
      (by norm_num [envQ, demoEnv, demoParams])
      (fun k _ hk2 => by
        rw [hc]
        have : (k : ℚ) ≤ 1 := by exact_mod_cast hk2
        have : (0 : ℚ) ≤ k := Nat.cast_nonneg k
        nlinarith)
    have e3 : (r.1.mOscData 0).mPhase = -(4607669 / 73500000) := by
      rw [e1]; norm_num
    exact ⟨r, hr, e3, by rw [e3]; norm_num⟩
  · obtain ⟨r, hr, e1, _⟩ := envQ_single_run { demoParams 1 0 with mMult := 2205 / 11 } rfl 1
      (1256637 / 100000)
      (by norm_num [envQ, demoEnv, demoParams])
      (fun k hk1 hk2 => by
        rw [hc]
        have : k = 1 := by omega
        subst this
        norm_num)
    have e3 : (r.1.mOscData 0).mPhase = 1256637 / 100000 := by
      rw [e1]; norm_num
    exact ⟨r, hr, e3, by rw [e3, hc]; norm_num⟩

/-! ### C3: non-finite phase -/

/-- C3 (non-finite phase), the code at the failing input.  With a pitch whose frequency is
`+∞`, the first phase increment of slot 0 is `+∞`, the phase becomes `+∞`, and the loop
`while (mPhase > FTWO_PI*2) mPhase -= FTWO_PI*2` never finishes, since `+∞ - FTWO_PI*2` is
`+∞` again: for every amount of fuel `Process` does not return, although the voice is not
done. -/
theorem C3_infinite_phase_never_returns :
    IsDone envInf demoVoice 0 = false ∧
    (demoVoice.mOscData 0 : OscData XFloat Nat).mPhase +
      envInf.GetPhaseInc (envInf.PitchToFreq (envInf.GetPitch 0) * (demoParams 1 0).mMult *
        (((demoParams 1 0).mDetune - 1) *
          (demoVoice.mOscData 0 : OscData XFloat Nat).mDetuneFactor + 1)) = XFloat.pinf ∧
    (∀ fuel syncPhase, wrapPhase envInf fuel XFloat.pinf syncPhase = none) ∧
    ∀ fuel, Process envInf fuel 0 (demoBuffer 64 1) (demoParams 1 0) demoVoice = none :=
  ⟨rfl, envInf_phase_inf, wrapPhase_pinf, envInf_Process_none⟩

/-! ### C4: silence after completion -/

/-- C4 (silence after completion), the code at the failing input.  The first half of the
claim holds also with the IEEE special values: a voice that is done at entry makes
`Process` return `false` with buffer, parameters and voice unchanged.  The second half
does not: the sounding demo voice in `envInf` (frequency `+∞`) is not done at entry, yet no
amount of fuel makes `Process` return, so it never returns `true`.  This is the defect of
C3: the phase becomes `+∞` and the phase-wrap loop cannot leave it. -/
theorem C4_not_done_never_returns :
    (IsDone envInf doneVoice 0 = true ∧
      ∀ fuel, Process envInf fuel 0 (demoBuffer 64 1) (demoParams 1 0) doneVoice =
        some (false, { time := 0, out := demoBuffer 64 1, params := demoParams 1 0,
                       voice := doneVoice })) ∧
    IsDone envInf demoVoice 0 = false ∧
    (∀ fuel, Process envInf fuel 0 (demoBuffer 64 1) (demoParams 1 0) demoVoice = none) ∧
    ¬ ∃ fuel s, Process envInf fuel 0 (demoBuffer 64 1) (demoParams 1 0) demoVoice =
      some (true, s) := by
  refine ⟨⟨rfl, fun fuel => Process_done envInf fuel 0 _ _ doneVoice rfl⟩, rfl,
    envInf_Process_none, ?_⟩
  rintro ⟨fuel, s, h⟩
  rw [envInf_Process_none fuel] at h
  cases h

/-! ### C5: channel routing and additive mixing -/

section ClaimC5

variable {α τ A F G : Type} [LinearOrderedField α]

/-- C5 (channel routing and additive mixing).  When `Process` renders (not done at entry)
it returns `true` for enough fuel, and whenever it returns: the buffer keeps its size and
channel count; with exactly 1 active channel nothing but positions `0 .. BufferSize()-1`
of channel 0 changes, with 2 active channels nothing but those positions of channels 0
and 1; and each position `n` below `BufferSize()` of channel 0 ends as its previous
content plus the left sum `renderSample` returned at sample `n` (the unison sum after the
filter stage), likewise channel 1 with the right sum when 2 channels are active.  Here
the state before sample `n` is the one reached by the first `n` sample steps. -/
theorem C5_channel_routing [Archimedean α] (env : Env α τ A F G) (hpi : 0 < env.FTWO_PI)
    (time : α) (out : ChannelBuffer α) (p : OscillatorVoiceParams α τ A)
    (v : Voice α τ A F) (hd : IsDone env v time = false) :
    (∃ r, Converges (fun f => Process env f time out p v) r) ∧
    ∀ fuel r, Process env fuel time out p v = some r →
      r.1 = true ∧
      r.2.out.mBufferSize = out.mBufferSize ∧
      r.2.out.mActiveChannels = out.mActiveChannels ∧
      (out.mActiveChannels = 1 → ∀ c n, (c ≠ 0 ∨ out.mBufferSize ≤ n) →
        r.2.out.mBuffers c n = out.mBuffers c n) ∧
      (out.mActiveChannels = 2 → ∀ c n, ((c ≠ 0 ∧ c ≠ 1) ∨ out.mBufferSize ≤ n) →
        r.2.out.mBuffers c n = out.mBuffers c n) ∧
      (∀ n, n < out.mBufferSize → ∃ sn q,
        stepRange (sampleStep env fuel (decide (out.mActiveChannels = 1))
            (env.GetPhaseInc p.mSyncFreq)) n 0
          { time := time, out := out, params := p,
            voice := { v with mOscData := setTypeLoop env p 0 v.mOscData } } = some sn ∧
        renderSample env fuel (decide (out.mActiveChannels = 1))
          (env.GetPhaseInc p.mSyncFreq) n sn = some q ∧
        r.2.out.mBuffers 0 n = out.mBuffers 0 n + q.2.2.1 ∧
        (out.mActiveChannels = 2 → r.2.out.mBuffers 1 n = out.mBuffers 1 n + q.2.2.2)) := by
  obtain ⟨r0, hr0, _⟩ := Process_converges env hpi time out p v
  refine ⟨⟨r0, hr0⟩, ?_⟩
  intro fuel r h
  obtain ⟨hb, hpos⟩ := Process_running env fuel time out p v hd r h
  have hfr := posLoop_frame env fuel _ _ _ _ _ hpos
  obtain ⟨hout1, hout2⟩ := posLoop_out env fuel _ _ _ _ _ hpos
  refine ⟨hb, hfr.2.2.2.2.2.2.1, hfr.2.2.2.2.2.2.2, ?_, ?_, ?_⟩
  · intro hc c n hcn
    apply hout1
    rcases hcn with hh | hh
    · exact Or.inr (Or.inl ⟨by simp [hc], hh⟩)
    · exact Or.inl hh
  · intro hc c n hcn
    apply hout1
    rcases hcn with hh | hh
    · exact Or.inr (Or.inr hh)
    · exact Or.inl hh
  · intro n hn
    obtain ⟨sn, q, e1, e2, e3, e4⟩ := hout2 n hn
    refine ⟨sn, q, e1, e2, e3, fun hc => e4 ?_⟩
    simp [hc]

end ClaimC5

/-- Witness for C5: the sounding demo voice and a stereo buffer of 4 samples. -/
theorem C5_channel_routing_witness :
    ((0 : ℚ) < envQ.FTWO_PI ∧ IsDone envQ demoVoice 0 = false) ∧
    ∀ fuel r, Process envQ fuel 0 (demoBuffer 4 2) (demoParams 2 0) demoVoice = some r →
      r.1 = true ∧
      ∀ c n, ((c ≠ 0 ∧ c ≠ 1) ∨ 4 ≤ n) → r.2.out.mBuffers c n = 0 :=
  ⟨⟨by norm_num [envQ, demoEnv], rfl⟩, fun fuel r h =>
    have hc := (C5_channel_routing envQ (by norm_num [envQ, demoEnv]) 0 (demoBuffer 4 2)
      (demoParams 2 0) demoVoice rfl).2 fuel r h
    ⟨hc.1, fun c n hcn => hc.2.2.2.2.1 rfl c n hcn⟩⟩

/-! ### C6: filter gating -/

section ClaimC6

variable {α τ A F G : Type} [LinearOrderedField α]

/-- C6 (filter gating).  `Start` sets `mUseFilter` to true exactly when the cutoff differs
from the no-cutoff sentinel, or the filter envelope's attack exceeds 1, or its sustain is
below 1, or its release exceeds 30; in particular it is false for cutoff equal to the
sentinel, attack at most 1, sustain at least 1 and release at most 30.  `Stop` and
`Process` (which returns for enough fuel), called with any parameter block, leave
`mUseFilter` as it is; and while it is false the filter stage returns the sums and both
filter states untouched, so a sample step hands the sums of the unison loop to the output
unfiltered. -/
theorem C6_filter_gating [Archimedean α] (env : Env α τ A F G) (hpi : 0 < env.FTWO_PI)
    (time target : α) (p : OscillatorVoiceParams α τ A) (v : Voice α τ A F) :
    ((Start env time target p v).mUseFilter = true ↔
      (p.mFilterCutoff ≠ env.SINGLEOSCILLATOR_NO_CUTOFF ∨ env.GetA p.mFilterAdsr > 1 ∨
        env.GetS p.mFilterAdsr < 1 ∨ env.GetR p.mFilterAdsr > 30)) ∧
    (p.mFilterCutoff = env.SINGLEOSCILLATOR_NO_CUTOFF → env.GetA p.mFilterAdsr ≤ 1 →
      env.GetS p.mFilterAdsr ≥ 1 → env.GetR p.mFilterAdsr ≤ 30 →
      (Start env time target p v).mUseFilter = false) ∧
    (∀ (t1 : α) (v1 : Voice α τ A F), (Stop env t1 v1).mUseFilter = v1.mUseFilter) ∧
    (∀ (t1 : α) (out : ChannelBuffer α) (p1 : OscillatorVoiceParams α τ A)
        (v1 : Voice α τ A F),
      (∃ r, Converges (fun f => Process env f t1 out p1 v1) r) ∧
      ∀ fuel r, Process env fuel t1 out p1 v1 = some r →
        r.2.voice.mUseFilter = v1.mUseFilter) ∧
    (∀ (p1 : OscillatorVoiceParams α τ A) (mono : Bool) (t1 : α) (v1 : Voice α τ A F)
        (sums : α × α), v1.mUseFilter = false →
      filterStage env p1 mono t1 v1 sums = (v1.mFilterLeft, v1.mFilterRight, sums)) ∧
    (∀ (fuel : Nat) (mono : Bool) (si : α) (pos : Nat) (s : RenderState α τ A F)
        (r : OscillatorVoiceParams α τ A × Voice α τ A F × (α × α)),
      s.voice.mUseFilter = false → renderSample env fuel mono si pos s = some r →
      ∃ acc, unisonLoop env fuel (computeSliders env pos s.params) mono si
          (env.adsrValue s.voice.mAdsr s.time) pos 0 (s.voice.mOscData, (0, 0)) = some acc ∧
        r.2.2 = acc.2 ∧ r.2.1.mFilterLeft = s.voice.mFilterLeft ∧
        r.2.1.mFilterRight = s.voice.mFilterRight) := by
  have hiff : (Start env time target p v).mUseFilter = true ↔
      (p.mFilterCutoff ≠ env.SINGLEOSCILLATOR_NO_CUTOFF ∨ env.GetA p.mFilterAdsr > 1 ∨
        env.GetS p.mFilterAdsr < 1 ∨ env.GetR p.mFilterAdsr > 30) := by
    simp only [Start, bne_iff_ne, ne_eq, Nat.cast_ofNat]
    split
    · rename_i hc; simp only [true_iff]; exact hc
    · rename_i hc; simp only [Bool.false_eq_true, false_iff]; exact hc
  refine ⟨hiff, ?_, ?_, ?_, ?_, ?_⟩
  · intro h1 h2 h3 h4
    have hn : ¬ (p.mFilterCutoff ≠ env.SINGLEOSCILLATOR_NO_CUTOFF ∨
        env.GetA p.mFilterAdsr > 1 ∨ env.GetS p.mFilterAdsr < 1 ∨
        env.GetR p.mFilterAdsr > 30) := by
      rintro (h | h | h | h)
      · exact h h1
      · exact absurd h (not_lt.mpr h2)
      · exact absurd h (not_lt.mpr h3)
      · exact absurd h (not_lt.mpr h4)
    have := mt hiff.mp hn
    simpa using this
  · intro t1 v1; rfl
  · intro t1 out p1 v1
    obtain ⟨r, hr, _⟩ := Process_converges env hpi t1 out p1 v1
    exact ⟨⟨r, hr⟩, fun fuel r h => (Process_frame env fuel t1 out p1 v1 r h).1⟩
  · intro p1 mono t1 v1 sums h
    exact filterStage_off env p1 mono t1 v1 sums h
  · intro fuel mono si pos s r hs h
    obtain ⟨acc, hacc, rfl⟩ := renderSample_spec env fuel mono si pos s r h
    refine ⟨acc, hacc, ?_, ?_, ?_⟩ <;>
      simp only [filterStage_off env _ mono s.time { s.voice with mOscData := acc.1 } acc.2 hs]

end ClaimC6

/-- Witness for C6: the demo parameters (cutoff at the sentinel, envelope `A = 1`, `S = 1`,
`R = 30`) leave `mUseFilter` false after `Start`. -/
theorem C6_filter_gating_witness :
    (0 : ℚ) < envQ.FTWO_PI ∧
    (Start envQ 0 1 (demoParams 1 0) demoVoice).mUseFilter = false :=
  ⟨by norm_num [envQ, demoEnv],
   (C6_filter_gating envQ (by norm_num [envQ, demoEnv]) 0 1 (demoParams 1 0)
      demoVoice).2.1 (by norm_num [envQ, demoEnv, demoParams])
      (by norm_num [envQ, demoEnv, demoParams, demoADSR])
      (by norm_num [envQ, demoEnv, demoParams, demoADSR])
      (by norm_num [envQ, demoEnv, demoParams, demoADSR])⟩

/-! ### C7: detune pinning -/

section ClaimC7

variable {α τ A F G : Type} [LinearOrderedField α]

/-- C7 (detune pinning).  Given that the random source returns values in `[-1,1]`:
right after `ClearVoice` slot 0 has detune factor exactly 1, slot 1 exactly 0, every slot
`2 .. kMaxUnison-1` a detune factor in `[-1,1]`, and every slot of the array has phase and
sync phase 0; `Start`, `Stop` and `Process` leave every slot's detune factor unchanged;
and after `ClearVoice` followed by any sequence of `Start`/`Stop`/`Process`/`ClearVoice`
calls (which returns for enough fuel) the pinning holds. -/
theorem C7_detune_pinning [Archimedean α] (env : Env α τ A F G) (hpi : 0 < env.FTWO_PI)
    (hrand : ∀ g, -1 ≤ (env.ofRandom (-1) 1 g).1 ∧ (env.ofRandom (-1) 1 g).1 ≤ 1) :
    (∀ (g : G) (v : Voice α τ A F),
      DetunePinned env (ClearVoice env g v).1 ∧
      ∀ u, u < env.kMaxUnison →
        ((ClearVoice env g v).1.mOscData u).mPhase = 0 ∧
        ((ClearVoice env g v).1.mOscData u).mSyncPhase = 0) ∧
    (∀ (time target : α) (p : OscillatorVoiceParams α τ A) (v : Voice α τ A F) (u : Nat),
      ((Start env time target p v).mOscData u).mDetuneFactor =
        (v.mOscData u).mDetuneFactor) ∧
    (∀ (time : α) (v : Voice α τ A F) (u : Nat),
      ((Stop env time v).mOscData u).mDetuneFactor = (v.mOscData u).mDetuneFactor) ∧
    (∀ (time : α) (out : ChannelBuffer α) (p : OscillatorVoiceParams α τ A)
        (v : Voice α τ A F),
      (∃ r, Converges (fun f => Process env f time out p v) r) ∧
      ∀ fuel r, Process env fuel time out p v = some r →
        ∀ u, (r.2.voice.mOscData u).mDetuneFactor = (v.mOscData u).mDetuneFactor) ∧
    (∀ (calls : List (VoiceCall α τ A)) (g : G) (v : Voice α τ A F),
      (∃ r, Converges (fun f => runCalls env f (VoiceCall.clearVoice :: calls) (v, g)) r) ∧
      ∀ fuel r, runCalls env fuel (VoiceCall.clearVoice :: calls) (v, g) = some r →
        DetunePinned env r.1) := by
  refine ⟨?_, ?_, ?_, ?_, ?_⟩
  · intro g v
    exact ⟨ClearVoice_pinned env hrand g v, (ClearVoice_slots env g v).2.2.2.1⟩
  · intro time target p v u
    have e : (Start env time target p v).mOscData = v.mOscData := by
      simp only [Start]; split <;> rfl
    rw [e]
  · intro time v u; rfl
  · intro time out p v
    obtain ⟨r, hr, _⟩ := Process_converges env hpi time out p v
    exact ⟨⟨r, hr⟩, fun fuel r h => (Process_frame env fuel time out p v r h).2.2.2.2.1⟩
  · intro calls g v
    refine ⟨runCalls_converges env hpi _ _, fun fuel r h => ?_⟩
    simp only [runCalls, runCall] at h
    exact runCalls_invariant env fuel (fun s => DetunePinned env s.1) calls _ r
      (fun c _ a b hI hc => runCall_pinned env hrand fuel c a b hI hc)
      (ClearVoice_pinned env hrand g v) h

end ClaimC7

/-- Witness for C7: the concrete environment, whose random source always returns `-1`;
after `ClearVoice`, `Start`, `Process`, `Stop`, `Process` the pinning holds. -/
theorem C7_detune_pinning_witness :
    ((0 : ℚ) < envQ.FTWO_PI ∧
      ∀ g, (-1 : ℚ) ≤ (envQ.ofRandom (-1) 1 g).1 ∧ (envQ.ofRandom (-1) 1 g).1 ≤ 1) ∧
    ∀ fuel r,
      runCalls envQ fuel
        [VoiceCall.clearVoice, VoiceCall.start 0 1 (demoParams 3 0),
         VoiceCall.process 0 (demoBuffer 4 2) (demoParams 3 0), VoiceCall.stop 1,
         VoiceCall.process 1 (demoBuffer 4 2) (demoParams 3 0)] (demoVoice, 0) = some r →
      DetunePinned envQ r.1 :=
  ⟨⟨by norm_num [envQ, demoEnv], fun g => by norm_num [envQ, demoEnv]⟩,
   ((C7_detune_pinning envQ (by norm_num [envQ, demoEnv])
      (fun g => by norm_num [envQ, demoEnv])).2.2.2.2
      [VoiceCall.start 0 1 (demoParams 3 0),
       VoiceCall.process 0 (demoBuffer 4 2) (demoParams 3 0), VoiceCall.stop 1,
       VoiceCall.process 1 (demoBuffer 4 2) (demoParams 3 0)] 0 demoVoice).2⟩

/-! ### C8: unison clamp -/

section ClaimC8

variable {α τ A F G : Type}
variable [Add α] [Sub α] [Mul α] [Neg α] [Zero α] [One α] [NatCast α] [OfScientific α]
variable [LT α] [∀ a b : α, Decidable (a < b)] [BEq α]

/-- C8 (unison clamp).  In every sample step the unison loop processes exactly the slots
`0 .. n-1` in order, where `n = unisonCount = min(mUnison, kMaxUnison)` (zero when
`mUnison <= 0`): the loop equals `n` successive slot steps; each slot below `n` ends as
the result of its own `advanceSlot`; every slot at index `n` or above is left as it was
and has no influence on the sums; `n` never exceeds `kMaxUnison`, a whole `Process` call
leaves every slot at index `kMaxUnison` or above untouched; and with `mUnison = 99`,
`kMaxUnison = 8` the count is 8. -/
theorem C8_unison_clamp (env : Env α τ A F G) (fuel : Nat)
    (p : OscillatorVoiceParams α τ A) (mono : Bool) (si av : α) (pos : Nat)
    (acc : UnisonAcc α τ) :
    ((unisonCount env p : Int) = max 0 (min p.mUnison (env.kMaxUnison : Int))) ∧
    unisonCount env p ≤ env.kMaxUnison ∧
    (p.mUnison ≤ 0 → unisonCount env p = 0) ∧
    (p.mUnison = 99 → env.kMaxUnison = 8 → unisonCount env p = 8) ∧
    unisonLoop env fuel p mono si av pos 0 acc =
      stepRange (slotStep env fuel p mono si av pos) (unisonCount env p) 0 acc ∧
    (∀ acc1, unisonLoop env fuel p mono si av pos 0 acc = some acc1 →
      (∀ j, unisonCount env p ≤ j → acc1.1 j = acc.1 j) ∧
      (∀ j, j < unisonCount env p →
        advanceSlot env fuel p si pos (acc.1 j) = some (acc1.1 j))) ∧
    (∀ acc2 : UnisonAcc α τ,
      (∀ j, j < unisonCount env p → acc.1 j = acc2.1 j) → acc.2 = acc2.2 →
      Option.map Prod.snd (unisonLoop env fuel p mono si av pos 0 acc) =
        Option.map Prod.snd (unisonLoop env fuel p mono si av pos 0 acc2)) ∧
    (∀ (time : α) (out : ChannelBuffer α) (v : Voice α τ A F) r,
      Process env fuel time out p v = some r →
      ∀ j, env.kMaxUnison ≤ j → r.2.voice.mOscData j = v.mOscData j) := by
  refine ⟨?_, unisonCount_le env p, ?_, ?_,
    unisonLoop_eq_stepRange env fuel p mono si av pos (unisonCount env p) 0 acc rfl,
    fun acc1 h => unisonLoop_slots env fuel p mono si av pos acc acc1 h,
    fun acc2 h1 h2 => unisonLoop_sums_congr env fuel p mono si av pos acc acc2 h1 h2,
    fun time out v r h => (Process_frame env fuel time out p v r h).2.2.2.2.2.1⟩
  · unfold unisonCount; omega
  · intro h; unfold unisonCount; omega
  · intro h1 h2; unfold unisonCount; omega

end ClaimC8

/-- Witness for C8: in the concrete environment (`kMaxUnison = 8`) with `mUnison = 99` the
unison loop is exactly 8 slot steps. -/
theorem C8_unison_clamp_witness :
    (demoParams 99 0 : OscillatorVoiceParams ℚ Nat (GateADSR ℚ)).mUnison = 99 ∧
    envQ.kMaxUnison = 8 ∧
    unisonCount envQ (demoParams 99 0) = 8 ∧
    ∀ fuel, unisonLoop envQ fuel (demoParams 99 0) true 0 1 0 0 (demoVoice.mOscData, (0, 0)) =
      stepRange (slotStep envQ fuel (demoParams 99 0) true 0 1 0) 8 0
        (demoVoice.mOscData, (0, 0)) :=
  ⟨rfl, rfl,
   (C8_unison_clamp envQ 0 (demoParams 99 0) true 0 1 0
      (demoVoice.mOscData, (0, 0))).2.2.2.1 rfl rfl,
   fun fuel => (C8_unison_clamp envQ fuel (demoParams 99 0) true 0 1 0
      (demoVoice.mOscData, (0, 0))).2.2.2.2.1⟩

/-! ### C9: sync reset -/

section ClaimC9

variable {α τ A F G : Type} [LinearOrderedField α]

/-- C9 (sync reset).  In one step of the unison loop for slot `u` (the body of the loop in
`Process`): the step returns for enough fuel, and whenever it returns, if the phase plus
the phase increment exceeds `FTWO_PI*2` (a wrap), the slot's `mSyncPhase` after the step
is exactly the sync increment, whatever it was before, and `mPhase` was reduced by a
positive multiple of `FTWO_PI*2`; without a wrap `mSyncPhase` is its previous value plus
the sync increment and `mPhase` its previous value plus the phase increment. -/
theorem C9_sync_reset [Archimedean α] (env : Env α τ A F G) (hpi : 0 < env.FTWO_PI)
    (p : OscillatorVoiceParams α τ A) (mono : Bool) (si av : α) (pos u : Nat)
    (acc : UnisonAcc α τ) :
    (∃ r, Converges (fun f => slotStep env f p mono si av pos u acc) r) ∧
    ∀ (fuel : Nat) (acc1 : UnisonAcc α τ),
      slotStep env fuel p mono si av pos u acc = some acc1 →
      ((acc.1 u).mPhase + env.GetPhaseInc (env.PitchToFreq (env.GetPitch pos) * p.mMult *
            ((p.mDetune - 1) * (acc.1 u).mDetuneFactor + 1)) > env.FTWO_PI * 2 →
        (acc1.1 u).mSyncPhase = si ∧
        ∃ k : Nat, 1 ≤ k ∧ (acc1.1 u).mPhase =
          (acc.1 u).mPhase + env.GetPhaseInc (env.PitchToFreq (env.GetPitch pos) * p.mMult *
            ((p.mDetune - 1) * (acc.1 u).mDetuneFactor + 1)) - k * (env.FTWO_PI * 2)) ∧
      (¬ (acc.1 u).mPhase + env.GetPhaseInc (env.PitchToFreq (env.GetPitch pos) * p.mMult *
            ((p.mDetune - 1) * (acc.1 u).mDetuneFactor + 1)) > env.FTWO_PI * 2 →
        (acc1.1 u).mSyncPhase = (acc.1 u).mSyncPhase + si ∧
        (acc1.1 u).mPhase =
          (acc.1 u).mPhase + env.GetPhaseInc (env.PitchToFreq (env.GetPitch pos) * p.mMult *
            ((p.mDetune - 1) * (acc.1 u).mDetuneFactor + 1))) := by
  refine ⟨slotStep_converges env hpi p mono si av pos u acc, ?_⟩
  intro fuel acc1 h
  obtain ⟨d, hd, rfl⟩ := slotStep_spec env fuel p mono si av pos u acc acc1 h
  obtain ⟨r, hr, rfl⟩ := advanceSlot_spec env fuel p si pos (acc.1 u) d hd
  obtain ⟨_, hwrap, hno⟩ := wrapPhase_spec env fuel _ _ r hr
  simp only [Function.update_same]
  constructor
  · intro hc
    obtain ⟨e1, _, k, hk, e3⟩ := hwrap hc
    exact ⟨by rw [e1, zero_add], k, hk, e3⟩
  · intro hc
    have e := hno hc
    subst e
    exact ⟨rfl, rfl⟩

end ClaimC9

/-- Witness for C9 at a step that wraps: slot 0 at phase `12.55` with sync phase `5`, at
440 Hz (phase increment `0.0627`), sync increment `1`.  The phase plus the increment is
`12.6127 > FTWO_PI*2 = 12.56637`, the step returns, and after it the sync phase is
exactly `1` (reset to `0`, then the sync increment), not `5 + 1`; the phase was reduced by
a positive multiple of `FTWO_PI*2`. -/
theorem C9_sync_reset_witness :
    (0 : ℚ) < envQ.FTWO_PI ∧
    ((demoSlot (1255 / 100 : ℚ) 5 1 : OscData ℚ Nat).mPhase +
        envQ.GetPhaseInc (envQ.PitchToFreq (envQ.GetPitch 0) * (demoParams 1 880).mMult *
          (((demoParams 1 880).mDetune - 1) *
            (demoSlot (1255 / 100 : ℚ) 5 1 : OscData ℚ Nat).mDetuneFactor + 1)) >
          envQ.FTWO_PI * 2) ∧
    (∃ r, Converges (fun f => slotStep envQ f (demoParams 1 880) true 1 1 0 0
        ((fun _ => demoSlot (1255 / 100) 5 1), ((0 : ℚ), (0 : ℚ)))) r ∧
      (r.1 0).mSyncPhase = 1 ∧ (r.1 0).mSyncPhase ≠ 5 + 1) ∧
    ∀ (fuel : Nat) (acc1 : UnisonAcc ℚ Nat),
      slotStep envQ fuel (demoParams 1 880) true 1 1 0 0
          ((fun _ => demoSlot (1255 / 100) 5 1), ((0 : ℚ), (0 : ℚ))) = some acc1 →
      (acc1.1 0).mSyncPhase = 1 ∧
      ∃ k : Nat, 1 ≤ k ∧ (acc1.1 0).mPhase =
        (demoSlot (1255 / 100 : ℚ) 5 1 : OscData ℚ Nat).mPhase +
          envQ.GetPhaseInc (envQ.PitchToFreq (envQ.GetPitch 0) * (demoParams 1 880).mMult *
            (((demoParams 1 880).mDetune - 1) *
              (demoSlot (1255 / 100 : ℚ) 5 1 : OscData ℚ Nat).mDetuneFactor + 1)) -
          k * (envQ.FTWO_PI * 2) := by
  have hpi : (0 : ℚ) < envQ.FTWO_PI := by norm_num [envQ, demoEnv]
  have hwrap : (demoSlot (1255 / 100 : ℚ) 5 1 : OscData ℚ Nat).mPhase +
      envQ.GetPhaseInc (envQ.PitchToFreq (envQ.GetPitch 0) * (demoParams 1 880).mMult *
        (((demoParams 1 880).mDetune - 1) *
          (demoSlot (1255 / 100 : ℚ) 5 1 : OscData ℚ Nat).mDetuneFactor + 1)) >
        envQ.FTWO_PI * 2 := by
    norm_num [envQ, demoEnv, demoParams, demoSlot]
  have T := C9_sync_reset envQ hpi (demoParams 1 880) true 1 1 0 0
    ((fun _ => demoSlot (1255 / 100) 5 1), ((0 : ℚ), (0 : ℚ)))
  obtain ⟨r, f0, hr⟩ := T.1
  have hsync := ((T.2 f0 r (hr f0 (le_refl f0))).1 hwrap).1
  refine ⟨hpi, hwrap, ⟨r, ⟨f0, hr⟩, hsync, ?_⟩, fun fuel acc1 h => (T.2 fuel acc1 h).1 hwrap⟩
  rw [hsync]; norm_num

/-! ### C10: unison gain -/

section ClaimC10

variable {α τ A F G : Type} [LinearOrderedField α]

/-- C10 (unison gain), amended.  For a slot with index at least 2 whose detune factor lies
in `[-1,1]`, the sample is the raw sample times `1 - 0.5*detuneFactor`; that factor lies in
`[1/2, 3/2]`, so the magnitude of the sample is at most `3/2` of the raw magnitude; it is
an attenuation when the detune factor is non-negative, and a strict amplification of a
non-zero raw sample when the detune factor is negative.  Slots 0 and 1 receive no factor. -/
theorem C10_unison_gain (env : Env α τ A F G) (p : OscillatorVoiceParams α τ A) (av : α)
    (u : Nat) (d : OscData α τ) (hu : 2 ≤ u) (hlo : -1 ≤ d.mDetuneFactor)
    (hhi : d.mDetuneFactor ≤ 1) :
    slotSample env p av u d = rawSample env p av d * (1 - d.mDetuneFactor * 0.5) ∧
    (1 / 2 ≤ 1 - d.mDetuneFactor * 0.5 ∧ 1 - d.mDetuneFactor * 0.5 ≤ 3 / 2) ∧
    |slotSample env p av u d| ≤ 3 / 2 * |rawSample env p av d| ∧
    (0 ≤ d.mDetuneFactor → |slotSample env p av u d| ≤ |rawSample env p av d|) ∧
    (d.mDetuneFactor < 0 → rawSample env p av d ≠ 0 →
      |rawSample env p av d| < |slotSample env p av u d|) ∧
    (∀ u1, u1 < 2 → slotSample env p av u1 d = rawSample env p av d) := by
  have e : slotSample env p av u d = rawSample env p av d * (1 - d.mDetuneFactor * 0.5) := by
    have : u ≥ 2 := hu
    simp only [slotSample, if_pos this]
  have hhalf : (0.5 : α) = 1 / 2 := by norm_num
  have g1 : (1 : α) / 2 ≤ 1 - d.mDetuneFactor * 0.5 := by rw [hhalf]; linarith
  have g2 : 1 - d.mDetuneFactor * 0.5 ≤ (3 : α) / 2 := by rw [hhalf]; linarith
  have gpos : (0 : α) ≤ 1 - d.mDetuneFactor * 0.5 := by linarith
  have habs : |slotSample env p av u d| =
      |rawSample env p av d| * (1 - d.mDetuneFactor * 0.5) := by
    rw [e, abs_mul, abs_of_nonneg gpos]
  refine ⟨e, ⟨g1, g2⟩, ?_, ?_, ?_, ?_⟩
  · rw [habs]
    have := abs_nonneg (rawSample env p av d)
    nlinarith
  · intro hd
    rw [habs]
    have := abs_nonneg (rawSample env p av d)
    have g3 : 1 - d.mDetuneFactor * 0.5 ≤ (1 : α) := by rw [hhalf]; linarith
    nlinarith
  · intro hd hne
    rw [habs]
    have hp : 0 < |rawSample env p av d| := abs_pos.mpr hne
    have g3 : (1 : α) < 1 - d.mDetuneFactor * 0.5 := by rw [hhalf]; linarith
    nlinarith
  · intro u1 hu1
    have : ¬ u1 ≥ 2 := by omega
    simp only [slotSample, if_neg this]

end ClaimC10

/-- Witness for C10: slot 2 with detune factor `1/2`. -/
theorem C10_unison_gain_witness :
    (2 ≤ 2 ∧ (-1 : ℚ) ≤ (demoSlot (1 : ℚ) 0 (1 / 2) : OscData ℚ Nat).mDetuneFactor ∧
      (demoSlot (1 : ℚ) 0 (1 / 2) : OscData ℚ Nat).mDetuneFactor ≤ 1) ∧
    |slotSample envQ (demoParams 3 0) 1 2 (demoSlot (1 : ℚ) 0 (1 / 2))| ≤
      |rawSample envQ (demoParams 3 0) 1 (demoSlot (1 : ℚ) 0 (1 / 2))| :=
  ⟨⟨le_refl 2, by norm_num [demoSlot], by norm_num [demoSlot]⟩,
   (C10_unison_gain envQ (demoParams 3 0) 1 2 (demoSlot (1 : ℚ) 0 (1 / 2)) (le_refl 2)
      (by norm_num [demoSlot]) (by norm_num [demoSlot])).2.2.2.1 (by norm_num [demoSlot])⟩

/-- Counterexample to C10 as stated: slot 2 with detune factor `-1` (inside `[-1,1]`), raw
sample `1/10`: after the factor `1 - 0.5*(-1) = 3/2` the sample is `3/20`, larger in
magnitude; the factor is not in `[0,1]`. -/
theorem C10_counterexample :
    (-1 : ℚ) ≤ (demoSlot (1 : ℚ) 0 (-1) : OscData ℚ Nat).mDetuneFactor ∧
    (demoSlot (1 : ℚ) 0 (-1) : OscData ℚ Nat).mDetuneFactor ≤ 1 ∧
    rawSample envQ (demoParams 3 0) 1 (demoSlot (1 : ℚ) 0 (-1)) = 1 / 10 ∧
    slotSample envQ (demoParams 3 0) 1 2 (demoSlot (1 : ℚ) 0 (-1)) = 3 / 20 ∧
    ¬ |slotSample envQ (demoParams 3 0) 1 2 (demoSlot (1 : ℚ) 0 (-1))| ≤
      |rawSample envQ (demoParams 3 0) 1 (demoSlot (1 : ℚ) 0 (-1))| ∧
    ¬ (1 - (demoSlot (1 : ℚ) 0 (-1) : OscData ℚ Nat).mDetuneFactor * 0.5 ≤ 1) := by
  have e1 : rawSample envQ (demoParams 3 0) 1 (demoSlot (1 : ℚ) 0 (-1)) = 1 / 10 := by
    norm_num [rawSample, envQ, demoEnv, demoParams, demoSlot]
  have e2 : slotSample envQ (demoParams 3 0) 1 2 (demoSlot (1 : ℚ) 0 (-1)) = 3 / 20 := by
    simp only [slotSample, e1]
    norm_num [demoSlot]
  refine ⟨by norm_num [demoSlot], by norm_num [demoSlot], e1, e2, ?_, by norm_num [demoSlot]⟩
  rw [e1, e2]
  norm_num [abs_of_pos]

end SingleOscillatorVoice
